import Mathlib

/-!
Sliding puzzle engine (`src/index.js`, class `SlidingPuzzle`)

A shallow embedding of the engine part of `SlidingPuzzle`: the grid, the
tracked empty position, the move counter and the `isMoving` flag, with
`createGrid`, `canMove`, `moveTile`, the body of the `setTimeout`
callback of `moveTile`, `shuffle`, `checkWin`, `gameWon`, `initializeGame`,
the constructor and `newGame`.

Modelling conventions.

* JavaScript numbers are modelled by `Int` (indices, sizes, cell values) and
  `Nat` (the move counter); the engine only uses integers far below `2^53`.
* `this.grid` is a `List (List Int)`.  `grid[i]` for an index outside the
  outer array is `undefined`, and indexing `undefined` throws a `TypeError`:
  that is `Fault.typeError`.  `grid[i][j]` for `j` outside the row is the
  value `undefined`: reads return `Option Int`, with `none` for `undefined`.
  Storing `undefined`, or storing outside a row (which in JavaScript resizes
  the array or adds a property), leaves the grids-of-numbers model:
  `Fault.outOfModel`.
* DOM rendering, sound and the clock are not modelled, except for the flag
  `timerRunning` (whether `timerInterval` is live), which is what `gameWon`
  changes in the engine.
* `Math.random()` is an oracle: `shuffle` takes the sequence of raw draws
  `rand : Nat → Nat`, and `Math.floor(Math.random() * len)` at iteration `i`
  is `rand i % len`, which ranges over exactly the indices `0 .. len - 1`.
-/

namespace SlidingPuzzle

/-- The ways an operation can leave the model. -/
inductive Fault where
  | typeError
  | outOfModel
deriving DecidableEq, Repr

/-- The value of `this.grid`. -/
abbrev Grid := List (List Int)

/-- The value of `this.emptyPos`: `{ row, col }`. -/
structure Pos where
  row : Int
  col : Int
deriving DecidableEq, Repr

/-- The engine fields of a `SlidingPuzzle` object. -/
structure State where
  size : Int
  grid : Grid
  emptyPos : Pos
  moves : Nat
  isMoving : Bool
  timerRunning : Bool
deriving DecidableEq, Repr

/-- The JavaScript expression `grid[i]`: `none` is `undefined`. -/
def rowAt (g : Grid) (i : Int) : Option (List Int) :=
  if 0 ≤ i then g[i.toNat]? else none

/-- The JavaScript expression `r[j]` on a row: `none` is `undefined`. -/
def elemAt (r : List Int) (j : Int) : Option Int :=
  if 0 ≤ j then r[j.toNat]? else none

/-- The JavaScript expression `grid[i][j]`. -/
def readCell (g : Grid) (i j : Int) : Except Fault (Option Int) :=
  match rowAt g i with
  | none => .error .typeError
  | some r => .ok (elemAt r j)

/-- The JavaScript statement `grid[i][j] = v`. -/
def writeCell (g : Grid) (i j : Int) (v : Option Int) : Except Fault Grid :=
  match rowAt g i with
  | none => .error .typeError
  | some r =>
    match v with
    | none => .error .outOfModel
    | some x =>
      if 0 ≤ j ∧ j.toNat < r.length then .ok (g.set i.toNat (r.set j.toNat x))
      else .error .outOfModel

/-- The value stored by `createGrid` at `(i, j)`. -/
def solvedCell (size : Int) (i j : Nat) : Int :=
  if (i : Int) = size - 1 ∧ (j : Int) = size - 1 then 0 else (i : Int) * size + (j : Int) + 1

/-- Method `createGrid` (lines 68-82). -/
def createGrid (s : State) : State :=
  { s with
    grid := (List.range s.size.toNat).map fun i =>
      (List.range s.size.toNat).map fun j => solvedCell s.size i j
    emptyPos := ⟨s.size - 1, s.size - 1⟩ }

/-- Method `canMove` (lines 140-146). -/
def canMove (row col : Int) (s : State) : Bool :=
  (decide (|row - s.emptyPos.row| = 1) && decide (col = s.emptyPos.col)) ||
  (decide (|col - s.emptyPos.col| = 1) && decide (row = s.emptyPos.row))

/-- Method `moveTile` (lines 148-167), up to the point where it schedules the
timeout callback.  When a fault is reported, JavaScript has already set
`isMoving`. -/
def moveTile (row col : Int) (s : State) : Except Fault State :=
  if !canMove row col s || s.isMoving then .ok s
  else do
    let temp ← readCell s.grid s.emptyPos.row s.emptyPos.col
    let v ← readCell s.grid row col
    let g1 ← writeCell s.grid s.emptyPos.row s.emptyPos.col v
    let g2 ← writeCell g1 row col temp
    pure { s with grid := g2, emptyPos := ⟨row, col⟩, moves := s.moves + 1, isMoving := true }

/-- The inner loop of `checkWin` over the columns `js` of row `i`: `some b` is
`return b`, `none` is falling out of the loop. -/
def checkWinRow (size : Int) (g : Grid) (i : Nat) : List Nat → Except Fault (Option Bool)
  | [] => .ok none
  | j :: js =>
    if (i : Int) = size - 1 ∧ (j : Int) = size - 1 then checkWinRow size g i js
    else do
      let v ← readCell g i j
      if v ≠ some ((i : Int) * size + (j : Int) + 1) then pure (some false)
      else checkWinRow size g i js

/-- The outer loop of `checkWin` over the rows `is`. -/
def checkWinRows (size : Int) (g : Grid) : List Nat → Except Fault Bool
  | [] => .ok true
  | i :: is => do
    match ← checkWinRow size g i (List.range size.toNat) with
    | some b => pure b
    | none => checkWinRows size g is

/-- Method `checkWin` (lines 213-225). -/
def checkWin (s : State) : Except Fault Bool :=
  checkWinRows s.size s.grid (List.range s.size.toNat)

/-- Method `gameWon` (lines 227-236): `clearInterval(this.timerInterval)`; the
sound and the completion screen are presentation. -/
def gameWon (s : State) : State :=
  { s with timerRunning := false }

/-- The `setTimeout` callback of `moveTile` (lines 168-173). -/
def moveSettled (s : State) : Except Fault State := do
  let s1 := { s with isMoving := false }
  if ← checkWin s1 then pure (gameWon s1) else pure s1

/-- The array `directions` of `shuffle`. -/
def directions : List (Int × Int) := [(-1, 0), (1, 0), (0, -1), (0, 1)]

/-- The array `possibleMoves` built in one iteration of `shuffle` (lines 182-195). -/
def possibleMoves (s : State) : List (Int × Int) :=
  directions.filterMap fun d =>
    let newRow := s.emptyPos.row + d.1
    let newCol := s.emptyPos.col + d.2
    if newRow ≥ 0 ∧ newRow < s.size ∧ newCol ≥ 0 ∧ newCol < s.size then some (newRow, newCol)
    else none

/-- One iteration of the loop of `shuffle` (lines 182-205), with raw draw `d`. -/
def shuffleStep (d : Nat) (s : State) : Except Fault State :=
  if h : (possibleMoves s).length > 0 then do
    let randomMove := (possibleMoves s).get ⟨d % (possibleMoves s).length, Nat.mod_lt _ h⟩
    let v ← readCell s.grid randomMove.1 randomMove.2
    let g1 ← writeCell s.grid s.emptyPos.row s.emptyPos.col v
    let g2 ← writeCell g1 randomMove.1 randomMove.2 (some 0)
    pure { s with grid := g2, emptyPos := ⟨randomMove.1, randomMove.2⟩ }
  else pure s

/-- The loop of `shuffle` run on the draws `ds`, one iteration per draw. -/
def shuffleLoop : List Nat → State → Except Fault State
  | [], s => .ok s
  | d :: ds, s => do
    let s1 ← shuffleStep d s
    shuffleLoop ds s1

/-- Method `shuffle` (lines 176-211). -/
def shuffle (rand : Nat → Nat) (s : State) : Except Fault State := do
  let s1 ← shuffleLoop ((List.range 1000).map rand) (createGrid s)
  pure { s1 with moves := 0 }

/-- Method `startTimer` (lines 257-263), as far as the engine fields go. -/
def startTimer (s : State) : State :=
  { s with timerRunning := true }

/-- Method `initializeGame` (lines 61-66). -/
def initializeGame (rand : Nat → Nat) (s : State) : Except Fault State := do
  let s1 ← shuffle rand (createGrid s)
  pure (startTimer s1)

/-- The constructor (lines 15-28). -/
def construct (size : Int) (rand : Nat → Nat) : Except Fault State :=
  initializeGame rand
    { size := size, grid := [], emptyPos := ⟨size - 1, size - 1⟩, moves := 0,
      isMoving := false, timerRunning := false }

/-- Method `newGame` (lines 280-285). -/
def newGame (rand : Nat → Nat) (s : State) : Except Fault State :=
  initializeGame rand { s with isMoving := false, timerRunning := false }

/-! ## Shape of the grid and cell access by natural-number indices -/

/-- The grid is an `N × N` array: `N` rows of `N` elements each. -/
def IsSquare (N : Nat) (g : Grid) : Prop :=
  g.length = N ∧ ∀ r ∈ g, r.length = N

instance (N : Nat) (g : Grid) : Decidable (IsSquare N g) := by
  unfold IsSquare; infer_instance

/-- The number at row `i`, column `j` (`0` outside the grid). -/
def cellOf (g : Grid) (i j : Nat) : Int :=
  ((g[i]?.getD [])[j]?).getD 0

/-- The grid with the number at row `i`, column `j` replaced by `x`. -/
def setCell (g : Grid) (i j : Nat) (x : Int) : Grid :=
  g.set i ((g[i]?.getD []).set j x)

/-- The grid with the numbers at `(a, b)` and `(c, d)` exchanged, written as the
two assignments of `moveTile`. -/
def swapCells (g : Grid) (a b c d : Nat) : Grid :=
  setCell (setCell g a b (cellOf g c d)) c d (cellOf g a b)

/-- The value `checkWin` expects at `(i, j)` when it checks that cell. -/
def CellSolved (N : Nat) (g : Grid) (i j : Nat) : Prop :=
  ¬((i : Int) = (N : Int) - 1 ∧ (j : Int) = (N : Int) - 1) →
    cellOf g i j = (i : Int) * (N : Int) + (j : Int) + 1

instance (N : Nat) (g : Grid) (i j : Nat) : Decidable (CellSolved N g i j) := by
  unfold CellSolved; infer_instance

/-- The cell `(row, col)` lies inside an `N × N` grid. -/
def InBounds (N : Nat) (row col : Int) : Prop :=
  0 ≤ row ∧ row < N ∧ 0 ≤ col ∧ col < N

instance (N : Nat) (row col : Int) : Decidable (InBounds N row col) := by
  unfold InBounds; infer_instance

/-- The board invariant for size `N`: the grid is `N × N`, its values are
`0, ..., N * N - 1`, each exactly once, and `emptyPos` is an in-bounds cell that
holds the sentinel `0`. -/
def BoardInvariant (N : Nat) (s : State) : Prop :=
  IsSquare N s.grid ∧
  s.grid.flatten.Perm ((List.range (N * N)).map Int.ofNat) ∧
  InBounds N s.emptyPos.row s.emptyPos.col ∧
  readCell s.grid s.emptyPos.row s.emptyPos.col = .ok (some 0)

/-- The cell picked by `possibleMoves[Math.floor(Math.random() * possibleMoves.length)]`
for the raw draw `d`, when `possibleMoves` is not empty. -/
def chosenMove (d : Nat) (s : State) : Option Pos :=
  if h : (possibleMoves s).length > 0 then
    let m := (possibleMoves s).get ⟨d % (possibleMoves s).length, Nat.mod_lt _ h⟩
    some ⟨m.1, m.2⟩
  else none

/-- The slides made by the loop of `shuffle` on the draws `ds`, recorded in
order: for each slide, the empty position it vacated and the cell whose tile it
moved (the new empty position). -/
def shuffleRecord : List Nat → State → List (Pos × Pos)
  | [], _ => []
  | d :: ds, s =>
    match shuffleStep d s with
    | .error _ => []
    | .ok s1 =>
      match chosenMove d s with
      | some m => (s.emptyPos, m) :: shuffleRecord ds s1
      | none => shuffleRecord ds s1

/-- A legal slide of the tile at `p` as the player makes it: `p` is inside the
grid, `canMove` holds, no move is in flight; `moveTile` runs and then its
timeout callback. -/
def legalSlide (p : Pos) (s : State) : Option State :=
  if 0 ≤ p.row ∧ p.row < s.size ∧ 0 ≤ p.col ∧ p.col < s.size ∧
      canMove p.row p.col s = true ∧ s.isMoving = false then
    match moveTile p.row p.col s >>= moveSettled with
    | .ok s1 => some s1
    | .error _ => none
  else none

/-- A sequence of legal slides; `none` as soon as one of them is not legal. -/
def playSlides : List Pos → State → Option State
  | [], s => some s
  | p :: ps, s => (legalSlide p s).bind (playSlides ps)

/-- The state `t` is the state `s` after one slide on an `N × N` board: the new
empty position `t.emptyPos` is an in-bounds cell for which `canMove` held in
`s`, so `row + col` of the empty position has changed by exactly one; that cell
now holds `0`, the cell that was empty holds the tile that stood there, and every
other cell reads as before. -/
def IsSlide (N : Nat) (s t : State) : Prop :=
  InBounds N t.emptyPos.row t.emptyPos.col ∧
  canMove t.emptyPos.row t.emptyPos.col s = true ∧
  ((t.emptyPos.row + t.emptyPos.col) - (s.emptyPos.row + s.emptyPos.col) = 1 ∨
    (t.emptyPos.row + t.emptyPos.col) - (s.emptyPos.row + s.emptyPos.col) = -1) ∧
  readCell t.grid t.emptyPos.row t.emptyPos.col = .ok (some 0) ∧
  readCell t.grid s.emptyPos.row s.emptyPos.col =
    readCell s.grid t.emptyPos.row t.emptyPos.col ∧
  ∀ i j : Int, (i, j) ≠ (t.emptyPos.row, t.emptyPos.col) →
    (i, j) ≠ (s.emptyPos.row, s.emptyPos.col) → readCell t.grid i j = readCell s.grid i j

/-- What initialisation (`initializeGame`) leaves when it is started on the
object `s0` and returns `s`: the size is kept, `moves` is `0`, no move is in
flight and the timer runs.  For a size of at most 1 the grid and `emptyPos` are
those `createGrid` builds, unshuffled (`[[0]]` for size 1, the empty grid for
size 0 or less).  For a size of at least 2 the board satisfies the invariant,
`shuffle` has made 1000 slides, and the grid and `emptyPos` are those reached
from the board of `createGrid` by playing these slides as legal moves. -/
def Initialised (rand : Nat → Nat) (s0 s : State) : Prop :=
  s.size = s0.size ∧ s.moves = 0 ∧ s.isMoving = false ∧ s.timerRunning = true ∧
  (s0.size ≤ 1 →
    s.grid = (List.range s0.size.toNat).map (fun _ => [0]) ∧
    s.emptyPos = ⟨s0.size - 1, s0.size - 1⟩) ∧
  (2 ≤ s0.size →
    BoardInvariant s0.size.toNat s ∧
    (shuffleRecord ((List.range 1000).map rand) (createGrid s0)).length = 1000 ∧
    ∃ sp, playSlides
        ((shuffleRecord ((List.range 1000).map rand) (createGrid s0)).map (fun r => r.2))
        (createGrid s0) = some sp ∧
      sp.grid = s.grid ∧ sp.emptyPos = s.emptyPos)

/-! ## Lemmas on cell access -/

theorem isSquare_row {N : Nat} {g : Grid} (hg : IsSquare N g) {i : Nat} (hi : i < N) :
    ∃ r, g[i]? = some r ∧ r.length = N := by
  have hi2 : i < g.length := by rw [hg.1]; exact hi
  exact ⟨g[i], List.getElem?_eq_getElem hi2, hg.2 _ (List.getElem_mem hi2)⟩

theorem isSquare_setCell {N : Nat} {g : Grid} (hg : IsSquare N g) (i j : Nat) (x : Int) :
    IsSquare N (setCell g i j x) := by
  refine ⟨by simp [setCell, hg.1], ?_⟩
  intro r hr
  unfold setCell at hr
  rcases List.mem_or_eq_of_mem_set hr with h | h
  · exact hg.2 r h
  · subst h
    by_cases hi : i < N
    · obtain ⟨r, hr1, hr2⟩ := isSquare_row hg hi
      simp [hr1, hr2]
    · have : g.length ≤ i := by rw [hg.1]; omega
      rw [List.set_eq_of_length_le this] at hr
      exact hg.2 _ hr

theorem readCell_eq {N : Nat} {g : Grid} (hg : IsSquare N g) {i j : Nat}
    (hi : i < N) (hj : j < N) :
    readCell g (i : Int) (j : Int) = .ok (some (cellOf g i j)) := by
  obtain ⟨r, hr1, hr2⟩ := isSquare_row hg hi
  have hj2 : j < r.length := by rw [hr2]; exact hj
  simp [readCell, rowAt, elemAt, cellOf, hr1, List.getElem?_eq_getElem hj2]

theorem writeCell_eq {N : Nat} {g : Grid} (hg : IsSquare N g) {i j : Nat}
    (hi : i < N) (hj : j < N) (x : Int) :
    writeCell g (i : Int) (j : Int) (some x) = .ok (setCell g i j x) := by
  obtain ⟨r, hr1, hr2⟩ := isSquare_row hg hi
  simp [writeCell, rowAt, setCell, hr1, hr2, hj]

theorem cellOf_setCell {N : Nat} {g : Grid} (hg : IsSquare N g) {i j : Nat}
    (hi : i < N) (hj : j < N) (x : Int) (a b : Nat) :
    cellOf (setCell g i j x) a b = if a = i ∧ b = j then x else cellOf g a b := by
  obtain ⟨r, hr1, hr2⟩ := isSquare_row hg hi
  have hi2 : i < g.length := by rw [hg.1]; exact hi
  have hj2 : j < r.length := by rw [hr2]; exact hj
  unfold cellOf setCell
  by_cases ha : a = i
  · subst ha
    simp only [hr1, Option.getD_some, List.getElem?_set_self hi2, true_and]
    by_cases hb : b = j
    · subst hb; simp [List.getElem?_set_self hj2]
    · simp [hb, List.getElem?_set_ne (Ne.symm hb)]
  · simp [ha, List.getElem?_set_ne (Ne.symm ha)]

theorem grid_ext {N : Nat} {g g2 : Grid} (hg : IsSquare N g) (hg2 : IsSquare N g2)
    (h : ∀ i j, i < N → j < N → cellOf g i j = cellOf g2 i j) : g = g2 := by
  apply List.ext_getElem (by rw [hg.1, hg2.1])
  intro i h1 h2
  have hi : i < N := by rw [← hg.1]; exact h1
  have l1 : g[i].length = N := hg.2 _ (List.getElem_mem h1)
  have l2 : g2[i].length = N := hg2.2 _ (List.getElem_mem h2)
  apply List.ext_getElem (by rw [l1, l2])
  intro j h3 h4
  have hj : j < N := by rw [← l1]; exact h3
  have := h i j hi hj
  simpa [cellOf, List.getElem?_eq_getElem h1, List.getElem?_eq_getElem h2,
    List.getElem?_eq_getElem h3, List.getElem?_eq_getElem h4] using this

theorem readCell_out_row {N : Nat} {g : Grid} (hg : IsSquare N g) {a : Int}
    (ha : ¬(0 ≤ a ∧ a < N)) (b : Int) : readCell g a b = .error .typeError := by
  unfold readCell rowAt
  by_cases h0 : 0 ≤ a
  · have : g.length ≤ a.toNat := by rw [hg.1]; omega
    simp [h0, List.getElem?_eq_none this]
  · simp [h0]

theorem readCell_out_col {N : Nat} {g : Grid} (hg : IsSquare N g) {a b : Int}
    (ha : 0 ≤ a ∧ a < N) (hb : ¬(0 ≤ b ∧ b < N)) : readCell g a b = .ok none := by
  obtain ⟨r, hr1, hr2⟩ := isSquare_row hg (show a.toNat < N by omega)
  unfold readCell rowAt elemAt
  simp only [ha.1, if_true, hr1]
  by_cases h0 : 0 ≤ b
  · have : r.length ≤ b.toNat := by rw [hr2]; omega
    simp [h0, List.getElem?_eq_none this]
  · simp [h0]

theorem readCell_some_inBounds {N : Nat} {g : Grid} (hg : IsSquare N g) {a b : Int} {v : Int}
    (h : readCell g a b = .ok (some v)) : InBounds N a b := by
  by_cases ha : 0 ≤ a ∧ a < N
  · by_cases hb : 0 ≤ b ∧ b < N
    · exact ⟨ha.1, ha.2, hb.1, hb.2⟩
    · rw [readCell_out_col hg ha hb] at h; simp at h
  · rw [readCell_out_row hg ha] at h; simp at h

theorem readCell_setCell {N : Nat} {g : Grid} (hg : IsSquare N g) {i j : Nat}
    (hi : i < N) (hj : j < N) (x : Int) (a b : Int) :
    readCell (setCell g i j x) a b =
      if a = (i : Int) ∧ b = (j : Int) then .ok (some x) else readCell g a b := by
  have hg2 := isSquare_setCell hg i j x
  by_cases ha : 0 ≤ a ∧ a < N
  · by_cases hb : 0 ≤ b ∧ b < N
    · obtain ⟨a, rfl⟩ := Int.eq_ofNat_of_zero_le ha.1
      obtain ⟨b, rfl⟩ := Int.eq_ofNat_of_zero_le hb.1
      have ha2 : a < N := by omega
      have hb2 : b < N := by omega
      rw [readCell_eq hg2 ha2 hb2, readCell_eq hg ha2 hb2, cellOf_setCell hg hi hj]
      by_cases hc : a = i ∧ b = j
      · simp [hc]
      · have : ¬((a : Int) = (i : Int) ∧ (b : Int) = (j : Int)) := by omega
        simp [hc, this]
    · have : ¬(a = (i : Int) ∧ b = (j : Int)) := by omega
      rw [readCell_out_col hg2 ha hb, readCell_out_col hg ha hb, if_neg this]
  · have : ¬(a = (i : Int) ∧ b = (j : Int)) := by omega
    rw [readCell_out_row hg2 ha, readCell_out_row hg ha, if_neg this]

theorem count_flatten_setCell (g : Grid) (i j : Nat) (x b : Int)
    (hi : i < g.length) (hj : j < (g[i]?.getD []).length) :
    (setCell g i j x).flatten.count b + (if cellOf g i j = b then 1 else 0) =
      g.flatten.count b + (if x = b then 1 else 0) := by
  induction g generalizing i with
  | nil => simp at hi
  | cons r rest ih =>
    cases i with
    | zero =>
      simp only [List.getElem?_cons_zero, Option.getD_some] at hj
      have hle : (if r[j] = b then 1 else 0) ≤ r.count b := by
        split
        · next h => exact List.count_pos_iff.mpr (h ▸ List.getElem_mem hj)
        · exact Nat.zero_le _
      simp only [setCell, cellOf, List.getElem?_cons_zero, Option.getD_some, List.set_cons_zero,
        List.flatten_cons, List.count_append, List.count_set _ _ _ _ hj,
        List.getElem?_eq_getElem hj, beq_iff_eq]
      omega
    | succ i =>
      simp only [List.getElem?_cons_succ, List.length_cons, Nat.add_lt_add_iff_right] at hi hj
      have := ih i hi hj
      simp only [setCell, cellOf, List.getElem?_cons_succ, List.set_cons_succ,
        List.flatten_cons, List.count_append] at this ⊢
      omega

theorem isSquare_swapCells {N : Nat} {g : Grid} (hg : IsSquare N g) (a b c d : Nat) :
    IsSquare N (swapCells g a b c d) :=
  isSquare_setCell (isSquare_setCell hg _ _ _) _ _ _

theorem readCell_swapCells {N : Nat} {g : Grid} (hg : IsSquare N g) {a b c d : Nat}
    (ha : a < N) (hb : b < N) (hc : c < N) (hd : d < N) (i j : Int) :
    readCell (swapCells g a b c d) i j =
      if i = (c : Int) ∧ j = (d : Int) then .ok (some (cellOf g a b))
      else if i = (a : Int) ∧ j = (b : Int) then .ok (some (cellOf g c d))
      else readCell g i j := by
  unfold swapCells
  rw [readCell_setCell (isSquare_setCell hg _ _ _) hc hd, readCell_setCell hg ha hb]

theorem cellOf_swapCells {N : Nat} {g : Grid} (hg : IsSquare N g) {a b c d : Nat}
    (ha : a < N) (hb : b < N) (hc : c < N) (hd : d < N) (i j : Nat) :
    cellOf (swapCells g a b c d) i j =
      if i = c ∧ j = d then cellOf g a b
      else if i = a ∧ j = b then cellOf g c d
      else cellOf g i j := by
  unfold swapCells
  rw [cellOf_setCell (isSquare_setCell hg _ _ _) hc hd, cellOf_setCell hg ha hb]

theorem swapCells_perm {N : Nat} {g : Grid} (hg : IsSquare N g) {a b c d : Nat}
    (ha : a < N) (hb : b < N) (hc : c < N) (hd : d < N) (hne : ¬(c = a ∧ d = b)) :
    (swapCells g a b c d).flatten.Perm g.flatten := by
  rw [List.perm_iff_count]
  intro v
  have hlen : ∀ {g2 : Grid}, IsSquare N g2 → ∀ {i : Nat}, i < N →
      i < g2.length ∧ (g2[i]?.getD []).length = N := by
    intro g2 h2 i hi
    obtain ⟨r, hr1, hr2⟩ := isSquare_row h2 hi
    exact ⟨by rw [h2.1]; exact hi, by rw [hr1]; exact hr2⟩
  have hg1 := isSquare_setCell hg a b (cellOf g c d)
  have e1 := count_flatten_setCell g a b (cellOf g c d) v (hlen hg ha).1
    (by rw [(hlen hg ha).2]; exact hb)
  have e2 := count_flatten_setCell (setCell g a b (cellOf g c d)) c d (cellOf g a b) v
    (hlen hg1 hc).1 (by rw [(hlen hg1 hc).2]; exact hd)
  rw [cellOf_setCell hg ha hb, if_neg hne] at e2
  unfold swapCells
  omega

/-! ## `createGrid` and `checkWin` -/

theorem isSquare_createGrid (N : Nat) (s : State) (hs : s.size = N) :
    IsSquare N (createGrid s).grid := by
  constructor
  · simp [createGrid, hs]
  · intro r hr
    simp only [createGrid, List.mem_map] at hr
    obtain ⟨i, _, rfl⟩ := hr
    simp [hs]

theorem cellOf_createGrid (N : Nat) (s : State) (hs : s.size = N) {i j : Nat}
    (hi : i < N) (hj : j < N) :
    cellOf (createGrid s).grid i j = solvedCell N i j := by
  simp [cellOf, createGrid, hs, List.getElem?_map, List.getElem?_range hi,
    List.getElem?_range hj]

theorem checkWinRow_eq {N : Nat} {g : Grid} (hg : IsSquare N g) {i : Nat} (hi : i < N)
    (js : List Nat) (hjs : ∀ j ∈ js, j < N) :
    checkWinRow N g i js =
      .ok (if ∀ j ∈ js, CellSolved N g i j then none else some false) := by
  induction js with
  | nil => simp [checkWinRow]
  | cons j js ih =>
    have hj : j < N := hjs j (List.mem_cons_self _ _)
    have ih2 := ih (fun k hk => hjs k (List.mem_cons_of_mem _ hk))
    unfold checkWinRow
    by_cases hlast : (i : Int) = (N : Int) - 1 ∧ (j : Int) = (N : Int) - 1
    · rw [if_pos hlast, ih2]
      have : CellSolved N g i j := fun h => absurd hlast h
      simp [this]
    · rw [if_neg hlast, readCell_eq hg hi hj]
      by_cases hc : cellOf g i j = (i : Int) * (N : Int) + (j : Int) + 1
      · have : CellSolved N g i j := fun _ => hc
        simp only [bind, Except.bind, hc, ne_eq, not_true_eq_false, if_false, ih2]
        simp [this]
      · have : ¬ CellSolved N g i j := fun h => hc (h hlast)
        simp [bind, Except.bind, hc, this, pure, Except.pure]

theorem checkWinRows_eq {N : Nat} {g : Grid} (hg : IsSquare N g)
    (rows : List Nat) (hrows : ∀ i ∈ rows, i < N) :
    checkWinRows N g rows =
      .ok (decide (∀ i ∈ rows, ∀ j, j < N → CellSolved N g i j)) := by
  induction rows with
  | nil => simp [checkWinRows]
  | cons i rows ih =>
    have hi : i < N := hrows i (List.mem_cons_self _ _)
    have ih2 := ih (fun k hk => hrows k (List.mem_cons_of_mem _ hk))
    unfold checkWinRows
    rw [Int.toNat_ofNat, checkWinRow_eq hg hi _ (fun j hj => List.mem_range.mp hj)]
    by_cases hrow : ∀ j ∈ List.range N, CellSolved N g i j
    · have hrow2 : ∀ j, j < N → CellSolved N g i j := fun j hj => hrow j (List.mem_range.mpr hj)
      simp only [if_pos hrow, bind, Except.bind, ih2]
      congr 1
      simp only [List.mem_cons, forall_eq_or_imp, decide_eq_decide]
      exact ⟨fun h => ⟨hrow2, h⟩, fun h => h.2⟩
    · have hrow2 : ¬ ∀ j, j < N → CellSolved N g i j :=
        fun h => hrow (fun j hj => h j (List.mem_range.mp hj))
      simp only [if_neg hrow, bind, Except.bind, pure, Except.pure]
      congr 1
      simp [hrow2]

theorem checkWin_eq {N : Nat} {s : State} (hs : s.size = N) (hg : IsSquare N s.grid) :
    checkWin s = .ok (decide (∀ i, i < N → ∀ j, j < N → CellSolved N s.grid i j)) := by
  unfold checkWin
  rw [hs, Int.toNat_ofNat, checkWinRows_eq hg _ (fun j hj => List.mem_range.mp hj)]
  congr 1
  simp only [List.mem_range]

theorem checkWin_true_iff {N : Nat} {s : State} (hs : s.size = N) (hg : IsSquare N s.grid) :
    checkWin s = .ok true ↔ ∀ i j, i < N → j < N → CellSolved N s.grid i j := by
  rw [checkWin_eq hs hg]
  simp only [Except.ok.injEq, decide_eq_true_eq]
  exact ⟨fun h i j hi hj => h i hi j hj, fun h i hi j hj => h i j hi hj⟩

/-- C6: for `N ≥ 2`, `createGrid` builds the `N × N` grid with `i * N + j + 1` at
every cell `(i, j)` but the last, `0` at `(N - 1, N - 1)`, sets `emptyPos` to
`(N - 1, N - 1)`, and `checkWin` on the result returns `true`. -/
theorem createGrid_solved (N : Nat) (hN : 2 ≤ N) (s : State) (hs : s.size = N) :
    IsSquare N (createGrid s).grid ∧
    (∀ i j : Nat, i < N → j < N → ¬(i = N - 1 ∧ j = N - 1) →
      readCell (createGrid s).grid i j = .ok (some ((i : Int) * N + j + 1))) ∧
    readCell (createGrid s).grid ((N : Int) - 1) ((N : Int) - 1) = .ok (some 0) ∧
    (createGrid s).emptyPos = ⟨(N : Int) - 1, (N : Int) - 1⟩ ∧
    checkWin (createGrid s) = .ok true := by
  have hsq := isSquare_createGrid N s hs
  refine ⟨hsq, ?_, ?_, ?_, ?_⟩
  · intro i j hi hj hne
    rw [readCell_eq hsq hi hj, cellOf_createGrid N s hs hi hj]
    have : ¬((i : Int) = (N : Int) - 1 ∧ (j : Int) = (N : Int) - 1) := by omega
    simp [solvedCell, this]
  · have h1 : ((N : Int) - 1) = ((N - 1 : Nat) : Int) := by omega
    rw [h1, readCell_eq hsq (by omega) (by omega), cellOf_createGrid N s hs (by omega) (by omega)]
    simp [solvedCell, h1]
  · simp [createGrid, hs]
  · have hs2 : (createGrid s).size = N := hs
    rw [checkWin_true_iff hs2 hsq]
    intro i j hi hj hne
    rw [cellOf_createGrid N s hs hi hj]
    simp [solvedCell, hne]

/-- Witness for C6: size 3 gives `[[1,2,3],[4,5,6],[7,8,0]]` with `emptyPos = (2, 2)`. -/
theorem createGrid_solved_witness :
    (createGrid ⟨3, [], ⟨2, 2⟩, 0, false, false⟩).grid = [[1, 2, 3], [4, 5, 6], [7, 8, 0]] ∧
    (createGrid ⟨3, [], ⟨2, 2⟩, 0, false, false⟩).emptyPos = ⟨2, 2⟩ ∧
    checkWin (createGrid ⟨3, [], ⟨2, 2⟩, 0, false, false⟩) = .ok true :=
  ⟨by decide, by decide,
    (createGrid_solved 3 (by decide) ⟨3, [], ⟨2, 2⟩, 0, false, false⟩ rfl).2.2.2.2⟩

theorem mem_flatten_cell {N : Nat} {g : Grid} (hg : IsSquare N g) {v : Int}
    (hv : v ∈ g.flatten) : ∃ i j, i < N ∧ j < N ∧ cellOf g i j = v := by
  obtain ⟨r, hr, hvr⟩ := List.mem_flatten.mp hv
  obtain ⟨i, hi, rfl⟩ := List.mem_iff_getElem.mp hr
  obtain ⟨j, hj, rfl⟩ := List.mem_iff_getElem.mp hvr
  have hl : g[i].length = N := hg.2 _ (List.getElem_mem hi)
  refine ⟨i, j, by rw [← hg.1]; exact hi, by rw [← hl]; exact hj, ?_⟩
  simp [cellOf, List.getElem?_eq_getElem hi, List.getElem?_eq_getElem hj]

theorem solved_of_checkWin {N : Nat} (hN : 1 ≤ N) {s : State} (hs : s.size = N)
    (hg : IsSquare N s.grid)
    (hperm : s.grid.flatten.Perm ((List.range (N * N)).map Int.ofNat))
    (hwin : checkWin s = .ok true) :
    cellOf s.grid (N - 1) (N - 1) = 0 ∧ s.grid = (createGrid s).grid := by
  have hall := (checkWin_true_iff hs hg).mp hwin
  have h0 : (0 : Int) ∈ s.grid.flatten := by
    rw [hperm.mem_iff, List.mem_map]
    exact ⟨0, List.mem_range.mpr (Nat.mul_pos hN hN), rfl⟩
  obtain ⟨i, j, hi, hj, hij⟩ := mem_flatten_cell hg h0
  have hlast : (i : Int) = (N : Int) - 1 ∧ (j : Int) = (N : Int) - 1 := by
    by_contra hne
    have h1 := hall i j hi hj hne
    rw [hij] at h1
    have : (0 : Int) ≤ (i : Int) * (N : Int) := by positivity
    omega
  have hi2 : i = N - 1 := by omega
  have hj2 : j = N - 1 := by omega
  subst hi2 hj2
  refine ⟨hij, grid_ext hg (isSquare_createGrid N s hs) ?_⟩
  intro a b ha hb
  rw [cellOf_createGrid N s hs ha hb]
  unfold solvedCell
  by_cases hab : (a : Int) = (N : Int) - 1 ∧ (b : Int) = (N : Int) - 1
  · have ha2 : a = N - 1 := by omega
    have hb2 : b = N - 1 := by omega
    rw [if_pos hab, ha2, hb2, hij]
  · rw [if_neg hab]
    exact hall a b ha hb hab

/-- C7: on an `N × N` grid (`N ≥ 1`) `checkWin` returns, and returns `true`
exactly when every cell `(i, j)` other than `(N - 1, N - 1)` holds
`i * N + j + 1`; if moreover the values of the grid are `0, ..., N * N - 1`, each
exactly once (the value part of the board invariant), then `checkWin` returning
`true` forces the unchecked last cell to hold `0`, and the grid is the one
`createGrid` builds. -/
theorem checkWin_spec (N : Nat) (hN : 1 ≤ N) (s : State) (hs : s.size = N)
    (hg : IsSquare N s.grid) :
    (∃ b, checkWin s = .ok b) ∧
    (checkWin s = .ok true ↔
      ∀ i j : Nat, i < N → j < N → ¬(i = N - 1 ∧ j = N - 1) →
        readCell s.grid i j = .ok (some ((i : Int) * N + j + 1))) ∧
    (s.grid.flatten.Perm ((List.range (N * N)).map Int.ofNat) → checkWin s = .ok true →
      readCell s.grid ((N : Int) - 1) ((N : Int) - 1) = .ok (some 0) ∧
      s.grid = (createGrid s).grid) := by
  refine ⟨⟨_, checkWin_eq hs hg⟩, ?_, ?_⟩
  · rw [checkWin_true_iff hs hg]
    constructor
    · intro h i j hi hj hne
      rw [readCell_eq hg hi hj, h i j hi hj (by omega)]
    · intro h i j hi hj hne
      have := h i j hi hj (by omega)
      rw [readCell_eq hg hi hj] at this
      simpa using this
  · intro hperm hwin
    obtain ⟨h1, h2⟩ := solved_of_checkWin hN hs hg hperm hwin
    refine ⟨?_, h2⟩
    have hc : ((N : Int) - 1) = ((N - 1 : Nat) : Int) := by omega
    rw [hc, readCell_eq hg (by omega) (by omega), h1]

/-- Witness for C7: the board `[[1,2],[3,0]]` of size 2. -/
theorem checkWin_spec_witness :
    (1 ≤ 2 ∧ (⟨2, [[1, 2], [3, 0]], ⟨1, 1⟩, 0, false, true⟩ : State).size = (2 : Nat) ∧
      IsSquare 2 [[1, 2], [3, 0]]) ∧
    ((∃ b, checkWin ⟨2, [[1, 2], [3, 0]], ⟨1, 1⟩, 0, false, true⟩ = .ok b) ∧
    (checkWin ⟨2, [[1, 2], [3, 0]], ⟨1, 1⟩, 0, false, true⟩ = .ok true ↔
      ∀ i j : Nat, i < 2 → j < 2 → ¬(i = 2 - 1 ∧ j = 2 - 1) →
        readCell [[1, 2], [3, 0]] i j = .ok (some ((i : Int) * (2 : Nat) + j + 1))) ∧
    (([[1, 2], [3, 0]] : Grid).flatten.Perm ((List.range (2 * 2)).map Int.ofNat) →
      checkWin ⟨2, [[1, 2], [3, 0]], ⟨1, 1⟩, 0, false, true⟩ = .ok true →
      readCell [[1, 2], [3, 0]] (((2 : Nat) : Int) - 1) (((2 : Nat) : Int) - 1) = .ok (some 0) ∧
      ([[1, 2], [3, 0]] : Grid) =
        (createGrid ⟨2, [[1, 2], [3, 0]], ⟨1, 1⟩, 0, false, true⟩).grid)) :=
  ⟨⟨by decide, rfl, by decide⟩,
    checkWin_spec 2 (by decide) ⟨2, [[1, 2], [3, 0]], ⟨1, 1⟩, 0, false, true⟩ rfl (by decide)⟩

/-! ## The board invariant -/

theorem length_flatten_of_isSquare {N : Nat} {g : Grid} (hg : IsSquare N g) :
    g.flatten.length = N * N := by
  have h : g.map List.length = List.replicate N N := by
    rw [List.eq_replicate_iff]
    refine ⟨by simp [hg.1], ?_⟩
    intro b hb
    obtain ⟨r, hr, rfl⟩ := List.mem_map.mp hb
    exact hg.2 r hr
  rw [List.length_flatten, h]
  simp

theorem cellOf_mem_flatten {N : Nat} {g : Grid} (hg : IsSquare N g) {i j : Nat}
    (hi : i < N) (hj : j < N) : cellOf g i j ∈ g.flatten := by
  have hi2 : i < g.length := by rw [hg.1]; exact hi
  have hl : g[i].length = N := hg.2 _ (List.getElem_mem hi2)
  have hj2 : j < g[i].length := by rw [hl]; exact hj
  rw [List.mem_flatten]
  refine ⟨g[i], List.getElem_mem hi2, ?_⟩
  simp only [cellOf, List.getElem?_eq_getElem hi2, Option.getD_some,
    List.getElem?_eq_getElem hj2]
  exact List.getElem_mem hj2

theorem perm_range_of_cells {N : Nat} {g : Grid} (hg : IsSquare N g)
    (h : ∀ k, k < N * N → ∃ i j, i < N ∧ j < N ∧ cellOf g i j = (k : Int)) :
    g.flatten.Perm ((List.range (N * N)).map Int.ofNat) := by
  have hnd : ((List.range (N * N)).map Int.ofNat).Nodup :=
    (List.nodup_range _).map (fun a b hab => Int.ofNat.inj hab)
  have hsub : (List.range (N * N)).map Int.ofNat ⊆ g.flatten := by
    intro v hv
    obtain ⟨k, hk, rfl⟩ := List.mem_map.mp hv
    obtain ⟨i, j, hi, hj, hij⟩ := h k (List.mem_range.mp hk)
    have := cellOf_mem_flatten hg hi hj
    rw [hij] at this
    exact this
  have hsp := List.subperm_of_subset hnd hsub
  exact (hsp.perm_of_length_le (by simp [length_flatten_of_isSquare hg])).symm

theorem createGrid_perm {N : Nat} (hN : 1 ≤ N) (s : State) (hs : s.size = N) :
    (createGrid s).grid.flatten.Perm ((List.range (N * N)).map Int.ofNat) := by
  apply perm_range_of_cells (isSquare_createGrid N s hs)
  intro k hk
  have hNN : N - 1 + (N - 1) * N + 1 = N * N := by
    have : (N - 1 + 1) * N = N * N := by rw [Nat.sub_add_cancel hN]
    rw [Nat.add_mul] at this
    omega
  rcases Nat.eq_zero_or_pos k with h0 | hpos
  · subst h0
    refine ⟨N - 1, N - 1, by omega, by omega, ?_⟩
    rw [cellOf_createGrid N s hs (by omega) (by omega)]
    have h1 : (((N - 1 : Nat)) : Int) = (N : Int) - 1 := by omega
    simp [solvedCell, h1]
  · have hdm := Nat.div_add_mod (k - 1) N
    have hmod : (k - 1) % N < N := Nat.mod_lt _ (by omega)
    have hdiv : (k - 1) / N < N := by
      rw [Nat.div_lt_iff_lt_mul (by omega)]
      omega
    refine ⟨(k - 1) / N, (k - 1) % N, hdiv, hmod, ?_⟩
    rw [cellOf_createGrid N s hs hdiv hmod]
    have hnl : ¬((((k - 1) / N : Nat) : Int) = (N : Int) - 1 ∧
        (((k - 1) % N : Nat) : Int) = (N : Int) - 1) := by
      intro hc
      have h1 : (k - 1) / N = N - 1 := by omega
      have h2 : (k - 1) % N = N - 1 := by omega
      rw [h1, h2, Nat.mul_comm] at hdm
      omega
    rw [solvedCell, if_neg hnl]
    have : (((k - 1) / N : Nat) : Int) * (N : Int) + (((k - 1) % N : Nat) : Int) =
        ((k - 1 : Nat) : Int) := by
      have h3 := congrArg Int.ofNat hdm
      simp only [Int.ofNat_eq_coe] at h3
      push_cast at h3
      rw [mul_comm]
      exact h3
    rw [this]
    omega

theorem boardInvariant_createGrid {N : Nat} (hN : 1 ≤ N) (s : State) (hs : s.size = N) :
    BoardInvariant N (createGrid s) := by
  have hsq := isSquare_createGrid N s hs
  have h1 : (N : Int) - 1 = ((N - 1 : Nat) : Int) := by omega
  refine ⟨hsq, createGrid_perm hN s hs, ?_, ?_⟩
  · simp only [createGrid, hs, InBounds]
    omega
  · simp only [createGrid, hs]
    rw [h1]
    have := readCell_eq hsq (show N - 1 < N by omega) (show N - 1 < N by omega)
    rw [cellOf_createGrid N s hs (by omega) (by omega)] at this
    simp only [createGrid, hs] at this
    rw [this]
    simp [solvedCell, h1]

/-! ## `canMove` -/

theorem canMove_iff (s : State) (row col : Int) :
    canMove row col s = true ↔
      (row - s.emptyPos.row = 1 ∨ row - s.emptyPos.row = -1) ∧ col = s.emptyPos.col ∨
      (col - s.emptyPos.col = 1 ∨ col - s.emptyPos.col = -1) ∧ row = s.emptyPos.row := by
  have ha := abs_cases (row - s.emptyPos.row)
  have hb := abs_cases (col - s.emptyPos.col)
  simp only [canMove, Bool.or_eq_true, Bool.and_eq_true, decide_eq_true_eq]
  generalize |row - s.emptyPos.row| = x at *
  generalize |col - s.emptyPos.col| = y at *
  omega

/-- C3: `canMove row col` is true exactly when `(row, col)` is at Manhattan
distance 1 from the empty position; it is false on the empty cell itself and on
every diagonal neighbour. -/
theorem canMove_iff_orthogonally_adjacent (s : State) (row col : Int) :
    (canMove row col s = true ↔
      |row - s.emptyPos.row| + |col - s.emptyPos.col| = 1) ∧
    canMove s.emptyPos.row s.emptyPos.col s = false ∧
    (|row - s.emptyPos.row| = 1 ∧ |col - s.emptyPos.col| = 1 → canMove row col s = false) := by
  have ha := abs_cases (row - s.emptyPos.row)
  have hb := abs_cases (col - s.emptyPos.col)
  refine ⟨?_, ?_, ?_⟩
  · simp only [canMove, Bool.or_eq_true, Bool.and_eq_true, decide_eq_true_eq]
    generalize |row - s.emptyPos.row| = x at *
    generalize |col - s.emptyPos.col| = y at *
    omega
  · simp [canMove]
  · intro h
    rw [← Bool.not_eq_true]
    simp only [canMove, Bool.or_eq_true, Bool.and_eq_true, decide_eq_true_eq]
    generalize |row - s.emptyPos.row| = x at *
    generalize |col - s.emptyPos.col| = y at *
    omega

/-! ## `moveTile` -/

theorem moveTile_accepted_eq {N : Nat} {s : State} (hg : IsSquare N s.grid)
    {er ec row col : Nat} (he : s.emptyPos = ⟨er, ec⟩) (her : er < N) (hec : ec < N)
    (hrow : row < N) (hcol : col < N) (hmoving : s.isMoving = false)
    (hcan : canMove row col s = true) :
    moveTile row col s = .ok
      { s with
        grid := swapCells s.grid er ec row col
        emptyPos := ⟨row, col⟩, moves := s.moves + 1, isMoving := true } := by
  unfold moveTile
  simp only [hcan, hmoving, Bool.not_true, Bool.or_self, Bool.false_eq_true, if_false, he]
  rw [readCell_eq hg her hec, readCell_eq hg hrow hcol]
  simp only [bind, Except.bind]
  rw [writeCell_eq hg her hec]
  simp only
  rw [writeCell_eq (isSquare_setCell hg _ _ _) hrow hcol]
  rfl

/-- C1: on an `N × N` board (`N ≥ 2`) whose tracked empty cell holds `0`, with
no move in flight, `moveTile` on an in-bounds cell for which `canMove` holds
succeeds and makes exactly one swap: `(row, col)` now holds `0`, the former
empty cell holds the value that was at `(row, col)`, every other cell reads as
before, `emptyPos` is `(row, col)` and `moves` has grown by exactly one. -/
theorem moveTile_accepted (N : Nat) (_hN : 2 ≤ N) (s : State) (row col : Int)
    (hg : IsSquare N s.grid)
    (hempty : readCell s.grid s.emptyPos.row s.emptyPos.col = .ok (some 0))
    (hmoving : s.isMoving = false)
    (hin : InBounds N row col)
    (hcan : canMove row col s = true) :
    ∃ s2, moveTile row col s = .ok s2 ∧
      IsSquare N s2.grid ∧
      readCell s2.grid row col = .ok (some 0) ∧
      readCell s2.grid s.emptyPos.row s.emptyPos.col = readCell s.grid row col ∧
      (∀ i j : Int, (i, j) ≠ (row, col) → (i, j) ≠ (s.emptyPos.row, s.emptyPos.col) →
        readCell s2.grid i j = readCell s.grid i j) ∧
      s2.emptyPos = ⟨row, col⟩ ∧
      s2.moves = s.moves + 1 ∧
      s2.size = s.size := by
  obtain ⟨he1, he2, he3, he4⟩ := readCell_some_inBounds hg hempty
  obtain ⟨hr1, hr2, hc1, hc2⟩ := hin
  obtain ⟨er, her⟩ := Int.eq_ofNat_of_zero_le he1
  obtain ⟨ec, hec⟩ := Int.eq_ofNat_of_zero_le he3
  obtain ⟨r, rfl⟩ := Int.eq_ofNat_of_zero_le hr1
  obtain ⟨c, rfl⟩ := Int.eq_ofNat_of_zero_le hc1
  have her2 : er < N := by omega
  have hec2 : ec < N := by omega
  have hr3 : r < N := by omega
  have hc3 : c < N := by omega
  have he : s.emptyPos = ⟨er, ec⟩ := by
    cases hp : s.emptyPos with
    | mk a b => rw [hp] at her hec; simp only at her hec; rw [her, hec]
  have hne : ¬((r : Int) = er ∧ (c : Int) = ec) := by
    have h3 := (canMove_iff s r c).mp hcan
    rw [he] at h3
    simp only at h3
    omega
  have h00 : cellOf s.grid er ec = 0 := by
    rw [he] at hempty
    simp only at hempty
    rw [readCell_eq hg her2 hec2] at hempty
    simpa using hempty
  refine ⟨_, moveTile_accepted_eq hg he her2 hec2 hr3 hc3 hmoving hcan, ?_, ?_, ?_, ?_, ?_, ?_, ?_⟩
  · exact isSquare_swapCells hg _ _ _ _
  · simp only
    rw [readCell_swapCells hg her2 hec2 hr3 hc3, h00]
    simp
  · simp only [he]
    rw [readCell_swapCells hg her2 hec2 hr3 hc3, readCell_eq hg hr3 hc3]
    have : ¬((er : Int) = r ∧ (ec : Int) = c) := fun h => hne ⟨h.1.symm, h.2.symm⟩
    rw [if_neg this, if_pos ⟨rfl, rfl⟩]
  · intro i j h1 h2
    simp only [he, ne_eq, Prod.mk.injEq] at h1 h2
    simp only
    rw [readCell_swapCells hg her2 hec2 hr3 hc3]
    simp [h1, h2]
  · rfl
  · rfl
  · rfl

/-- Witness for C1: on the solved board of size 3, `moveTile(1, 2)` gives
`[[1,2,3],[4,5,0],[7,8,6]]`, `emptyPos = (1, 2)`, `moves = 1`, and `checkWin` is
false there. -/
theorem moveTile_accepted_witness :
    (∃ s2, moveTile 1 2 ⟨3, [[1, 2, 3], [4, 5, 6], [7, 8, 0]], ⟨2, 2⟩, 0, false, true⟩ = .ok s2 ∧
      IsSquare 3 s2.grid ∧
      readCell s2.grid 1 2 = .ok (some 0) ∧
      readCell s2.grid 2 2 = readCell [[1, 2, 3], [4, 5, 6], [7, 8, 0]] 1 2 ∧
      (∀ i j : Int, (i, j) ≠ (1, 2) → (i, j) ≠ (2, 2) →
        readCell s2.grid i j = readCell [[1, 2, 3], [4, 5, 6], [7, 8, 0]] i j) ∧
      s2.emptyPos = ⟨1, 2⟩ ∧ s2.moves = 0 + 1 ∧ s2.size = 3) ∧
    moveTile 1 2 ⟨3, [[1, 2, 3], [4, 5, 6], [7, 8, 0]], ⟨2, 2⟩, 0, false, true⟩ =
      .ok ⟨3, [[1, 2, 3], [4, 5, 0], [7, 8, 6]], ⟨1, 2⟩, 1, true, true⟩ ∧
    checkWin ⟨3, [[1, 2, 3], [4, 5, 0], [7, 8, 6]], ⟨1, 2⟩, 1, true, true⟩ = .ok false :=
  ⟨moveTile_accepted 3 (by decide) ⟨3, [[1, 2, 3], [4, 5, 6], [7, 8, 0]], ⟨2, 2⟩, 0, false, true⟩
      1 2 (by decide) rfl rfl (by decide) rfl,
    rfl, rfl⟩

/-- C2: when `canMove row col` is false, or when `isMoving` is set, `moveTile`
returns without changing anything: the whole state (grid, `emptyPos`, `moves`
included) is as before. -/
theorem moveTile_rejected (s : State) (row col : Int)
    (h : canMove row col s = false ∨ s.isMoving = true) :
    moveTile row col s = .ok s := by
  unfold moveTile
  rcases h with h | h <;> simp [h]

/-- Witness for C2: size 3 with the empty cell at `(1, 2)` and `moves = 1`;
`moveTile(0, 0)` changes nothing. -/
theorem moveTile_rejected_witness :
    (canMove 0 0 ⟨3, [[1, 2, 3], [4, 5, 0], [7, 8, 6]], ⟨1, 2⟩, 1, false, true⟩ = false ∨
      (⟨3, [[1, 2, 3], [4, 5, 0], [7, 8, 6]], ⟨1, 2⟩, 1, false, true⟩ : State).isMoving = true) ∧
    moveTile 0 0 ⟨3, [[1, 2, 3], [4, 5, 0], [7, 8, 6]], ⟨1, 2⟩, 1, false, true⟩ =
      .ok ⟨3, [[1, 2, 3], [4, 5, 0], [7, 8, 6]], ⟨1, 2⟩, 1, false, true⟩ :=
  ⟨Or.inl (by decide), moveTile_rejected _ 0 0 (Or.inl (by decide))⟩

/-! ## `shuffle` -/

theorem mem_possibleMoves (s : State) (m : Int × Int) :
    m ∈ possibleMoves s ↔
      (0 ≤ m.1 ∧ m.1 < s.size ∧ 0 ≤ m.2 ∧ m.2 < s.size) ∧
      ((m.1 = s.emptyPos.row - 1 ∧ m.2 = s.emptyPos.col) ∨
       (m.1 = s.emptyPos.row + 1 ∧ m.2 = s.emptyPos.col) ∨
       (m.1 = s.emptyPos.row ∧ m.2 = s.emptyPos.col - 1) ∨
       (m.1 = s.emptyPos.row ∧ m.2 = s.emptyPos.col + 1)) := by
  obtain ⟨a, b⟩ := m
  simp only [possibleMoves, directions, List.mem_filterMap, List.mem_cons, List.mem_singleton,
    List.not_mem_nil, or_false]
  constructor
  · rintro ⟨d, hd, hif⟩
    split at hif
    · next hb =>
      simp only [Option.some.injEq, Prod.mk.injEq] at hif
      rcases hd with rfl | rfl | rfl | rfl <;> simp only at hb hif ⊢ <;> omega
    · simp at hif
  · rintro ⟨hb, hd⟩
    rcases hd with h | h | h | h
    · refine ⟨(-1, 0), by simp, ?_⟩
      simp only at h ⊢
      rw [if_pos (by omega)]
      simp only [Option.some.injEq, Prod.mk.injEq]
      omega
    · refine ⟨(1, 0), by simp, ?_⟩
      simp only at h ⊢
      rw [if_pos (by omega)]
      simp only [Option.some.injEq, Prod.mk.injEq]
      omega
    · refine ⟨(0, -1), by simp, ?_⟩
      simp only at h ⊢
      rw [if_pos (by omega)]
      simp only [Option.some.injEq, Prod.mk.injEq]
      omega
    · refine ⟨(0, 1), by simp, ?_⟩
      simp only at h ⊢
      rw [if_pos (by omega)]
      simp only [Option.some.injEq, Prod.mk.injEq]
      omega

theorem possibleMoves_length_pos {N : Nat} (hN : 2 ≤ N) {s : State} (hs : s.size = N)
    (hin : InBounds N s.emptyPos.row s.emptyPos.col) : 0 < (possibleMoves s).length := by
  obtain ⟨h1, h2, h3, h4⟩ := hin
  by_cases h : 1 ≤ s.emptyPos.row
  · have hm : (s.emptyPos.row - 1, s.emptyPos.col) ∈ possibleMoves s := by
      rw [mem_possibleMoves, hs]
      refine ⟨?_, Or.inl ⟨rfl, rfl⟩⟩
      simp only
      omega
    exact List.length_pos_of_mem hm
  · have hm : (s.emptyPos.row + 1, s.emptyPos.col) ∈ possibleMoves s := by
      rw [mem_possibleMoves, hs]
      refine ⟨?_, Or.inr (Or.inl ⟨rfl, rfl⟩)⟩
      simp only
      omega
    exact List.length_pos_of_mem hm

theorem possibleMoves_eq_nil_of_size_le_one (s : State) (hs : s.size ≤ 1)
    (he : s.emptyPos = ⟨s.size - 1, s.size - 1⟩) : possibleMoves s = [] := by
  rw [List.eq_nil_iff_forall_not_mem]
  intro m hm
  rw [mem_possibleMoves, he] at hm
  simp only at hm
  omega

theorem shuffleStep_of_nil (d : Nat) (s : State) (h : possibleMoves s = []) :
    shuffleStep d s = .ok s ∧ chosenMove d s = none := by
  simp [shuffleStep, chosenMove, h, pure, Except.pure]

/-- What one iteration of the loop of `shuffle` does on a board that satisfies
the invariant: nothing when `possibleMoves` is empty; otherwise it exchanges the
empty cell with the chosen in-bounds neighbour. -/
theorem shuffleStep_spec {N : Nat} {s : State} (hs : s.size = N) (hinv : BoardInvariant N s)
    (d : Nat) :
    (possibleMoves s = [] ∧ chosenMove d s = none ∧ shuffleStep d s = .ok s) ∨
    (∃ er ec mr mc : Nat, er < N ∧ ec < N ∧ mr < N ∧ mc < N ∧
      s.emptyPos = ⟨er, ec⟩ ∧ chosenMove d s = some ⟨mr, mc⟩ ∧ canMove mr mc s = true ∧
      cellOf s.grid er ec = 0 ∧
      shuffleStep d s = .ok
        { s with grid := swapCells s.grid er ec mr mc, emptyPos := ⟨mr, mc⟩ }) := by
  obtain ⟨hg, _, ⟨he1, he2, he3, he4⟩, hempty⟩ := hinv
  by_cases h : (possibleMoves s).length > 0
  · right
    obtain ⟨er, her⟩ := Int.eq_ofNat_of_zero_le he1
    obtain ⟨ec, hec⟩ := Int.eq_ofNat_of_zero_le he3
    have he : s.emptyPos = ⟨er, ec⟩ := by
      cases hp : s.emptyPos with
      | mk a b => rw [hp] at her hec; simp only at her hec; rw [her, hec]
    have hmem := List.get_mem (possibleMoves s) (d % (possibleMoves s).length) (Nat.mod_lt _ h)
    generalize hm : (possibleMoves s).get ⟨d % (possibleMoves s).length, Nat.mod_lt _ h⟩ = m
      at hmem
    obtain ⟨a, b⟩ := m
    have hmem2 := (mem_possibleMoves s (a, b)).mp hmem
    rw [hs] at hmem2
    simp only at hmem2
    obtain ⟨mr, rfl⟩ := Int.eq_ofNat_of_zero_le hmem2.1.1
    obtain ⟨mc, rfl⟩ := Int.eq_ofNat_of_zero_le hmem2.1.2.2.1
    have her2 : er < N := by omega
    have hec2 : ec < N := by omega
    have hmr : mr < N := by omega
    have hmc : mc < N := by omega
    have h00 : cellOf s.grid er ec = 0 := by
      rw [he] at hempty
      simp only at hempty
      rw [readCell_eq hg her2 hec2] at hempty
      simpa using hempty
    refine ⟨er, ec, mr, mc, her2, hec2, hmr, hmc, he, ?_, ?_, h00, ?_⟩
    · simp only [chosenMove, dif_pos h, hm]
    · rw [canMove_iff]
      omega
    · simp only [shuffleStep, dif_pos h, hm, he]
      rw [readCell_eq hg hmr hmc]
      simp only [bind, Except.bind]
      rw [writeCell_eq hg her2 hec2]
      simp only
      rw [writeCell_eq (isSquare_setCell hg _ _ _) hmr hmc]
      simp only [pure, Except.pure, swapCells, h00]
  · left
    have hnil : possibleMoves s = [] := List.eq_nil_of_length_eq_zero (by omega)
    exact ⟨hnil, (shuffleStep_of_nil d s hnil).2, (shuffleStep_of_nil d s hnil).1⟩

theorem boardInvariant_swap {N : Nat} {s t : State} {er ec mr mc : Nat}
    (hinv : BoardInvariant N s) (her : er < N) (hec : ec < N) (hmr : mr < N) (hmc : mc < N)
    (hne : ¬(mr = er ∧ mc = ec)) (h00 : cellOf s.grid er ec = 0)
    (hg1 : t.grid = swapCells s.grid er ec mr mc) (he1 : t.emptyPos = ⟨mr, mc⟩) :
    BoardInvariant N t := by
  obtain ⟨hg, hperm, _, _⟩ := hinv
  refine ⟨?_, ?_, ?_, ?_⟩
  · rw [hg1]; exact isSquare_swapCells hg _ _ _ _
  · rw [hg1]; exact (swapCells_perm hg her hec hmr hmc hne).trans hperm
  · rw [he1]
    simp only [InBounds]
    omega
  · rw [he1, hg1]
    simp only
    rw [readCell_swapCells hg her hec hmr hmc, if_pos ⟨rfl, rfl⟩, h00]

theorem ne_of_canMove {s : State} {er ec mr mc : Nat} (he : s.emptyPos = ⟨er, ec⟩)
    (hcan : canMove mr mc s = true) : ¬(mr = er ∧ mc = ec) := by
  have h := (canMove_iff s mr mc).mp hcan
  rw [he] at h
  simp only at h
  omega

theorem shuffleStep_inv {N : Nat} {s : State} (hs : s.size = N) (hinv : BoardInvariant N s)
    (d : Nat) :
    ∃ s1, shuffleStep d s = .ok s1 ∧ s1.size = N ∧ BoardInvariant N s1 ∧
      s1.moves = s.moves ∧ s1.isMoving = s.isMoving ∧ s1.timerRunning = s.timerRunning := by
  rcases shuffleStep_spec hs hinv d with ⟨_, _, h⟩ | ⟨er, ec, mr, mc, h1, h2, h3, h4, he, _, hcan, h00, h⟩
  · exact ⟨s, h, hs, hinv, rfl, rfl, rfl⟩
  · exact ⟨_, h, hs, boardInvariant_swap hinv h1 h2 h3 h4 (ne_of_canMove he hcan) h00 rfl rfl,
      rfl, rfl, rfl⟩

theorem shuffleLoop_inv {N : Nat} (ds : List Nat) {s : State} (hs : s.size = N)
    (hinv : BoardInvariant N s) :
    ∃ s1, shuffleLoop ds s = .ok s1 ∧ s1.size = N ∧ BoardInvariant N s1 ∧
      s1.moves = s.moves ∧ s1.isMoving = s.isMoving ∧ s1.timerRunning = s.timerRunning := by
  induction ds generalizing s with
  | nil => exact ⟨s, rfl, hs, hinv, rfl, rfl, rfl⟩
  | cons d ds ih =>
    obtain ⟨s1, h1, hs1, hinv1, hm1, hi1, ht1⟩ := shuffleStep_inv hs hinv d
    obtain ⟨s2, h2, hs2, hinv2, hm2, hi2, ht2⟩ := ih hs1 hinv1
    refine ⟨s2, ?_, hs2, hinv2, hm2.trans hm1, hi2.trans hi1, ht2.trans ht1⟩
    simp only [shuffleLoop, h1, bind, Except.bind, h2]

theorem moveTile_inv {N : Nat} {s : State} (hinv : BoardInvariant N s) {row col : Int}
    (hin : InBounds N row col) :
    ∃ s1, moveTile row col s = .ok s1 ∧ BoardInvariant N s1 ∧ s1.size = s.size := by
  by_cases hacc : canMove row col s = true ∧ s.isMoving = false
  · have hinv0 := hinv
    obtain ⟨hg, _, ⟨he1, he2, he3, he4⟩, hempty⟩ := hinv
    obtain ⟨hr1, hr2, hc1, hc2⟩ := hin
    obtain ⟨er, her⟩ := Int.eq_ofNat_of_zero_le he1
    obtain ⟨ec, hec⟩ := Int.eq_ofNat_of_zero_le he3
    obtain ⟨r, rfl⟩ := Int.eq_ofNat_of_zero_le hr1
    obtain ⟨c, rfl⟩ := Int.eq_ofNat_of_zero_le hc1
    have her2 : er < N := by omega
    have hec2 : ec < N := by omega
    have hr3 : r < N := by omega
    have hc3 : c < N := by omega
    have he : s.emptyPos = ⟨er, ec⟩ := by
      cases hp : s.emptyPos with
      | mk a b => rw [hp] at her hec; simp only at her hec; rw [her, hec]
    have h00 : cellOf s.grid er ec = 0 := by
      rw [he] at hempty
      simp only at hempty
      rw [readCell_eq hg her2 hec2] at hempty
      simpa using hempty
    exact ⟨_, moveTile_accepted_eq hg he her2 hec2 hr3 hc3 hacc.2 hacc.1,
      boardInvariant_swap hinv0 her2 hec2 hr3 hc3 (ne_of_canMove he hacc.1) h00 rfl rfl, rfl⟩
  · refine ⟨s, ?_, hinv, rfl⟩
    unfold moveTile
    by_cases h1 : canMove row col s = true
    · have h2 : s.isMoving = true := by
        cases hm : s.isMoving
        · exact absurd ⟨h1, hm⟩ hacc
        · rfl
      simp [h2]
    · simp [h1]

/-- C5: the board invariant (the grid is `N × N`, its values are `0 .. N * N - 1`
each exactly once, `emptyPos` is in bounds and holds `0`) holds after
`createGrid`; `moveTile` on an in-bounds cell returns a state that satisfies it
again (so does every accepted move); every iteration of the loop of `shuffle`
preserves it; and for `N ≥ 2` and every sequence of draws `shuffle` returns a
state that satisfies it, so its values are a permutation of `0 .. N * N - 1`. -/
theorem boardInvariant_maintained (N : Nat) (hN : 2 ≤ N) :
    (∀ s : State, s.size = N → BoardInvariant N (createGrid s)) ∧
    (∀ (s : State) (row col : Int), BoardInvariant N s → InBounds N row col →
      ∃ s1, moveTile row col s = .ok s1 ∧ BoardInvariant N s1) ∧
    (∀ (s : State) (d : Nat), s.size = N → BoardInvariant N s →
      ∃ s1, shuffleStep d s = .ok s1 ∧ s1.size = N ∧ BoardInvariant N s1) ∧
    (∀ (s : State) (rand : Nat → Nat), s.size = N →
      ∃ s1, shuffle rand s = .ok s1 ∧ BoardInvariant N s1 ∧
        s1.grid.flatten.Perm ((List.range (N * N)).map Int.ofNat)) := by
  refine ⟨?_, ?_, ?_, ?_⟩
  · intro s hs
    exact boardInvariant_createGrid (by omega) s hs
  · intro s row col hinv hin
    obtain ⟨s1, h1, h2, _⟩ := moveTile_inv hinv hin
    exact ⟨s1, h1, h2⟩
  · intro s d hs hinv
    obtain ⟨s1, h1, h2, h3, _⟩ := shuffleStep_inv hs hinv d
    exact ⟨s1, h1, h2, h3⟩
  · intro s rand hs
    have hinv0 := boardInvariant_createGrid (show 1 ≤ N by omega) s hs
    have hs0 : (createGrid s).size = N := hs
    obtain ⟨s1, h1, _, h3, _⟩ := shuffleLoop_inv ((List.range 1000).map rand) hs0 hinv0
    refine ⟨{ s1 with moves := 0 }, ?_, h3, h3.2.1⟩
    simp only [shuffle, h1, bind, Except.bind, pure, Except.pure]

/-- Witness for C5: size 3. -/
theorem boardInvariant_maintained_witness :
    2 ≤ 3 ∧
    ((∀ s : State, s.size = (3 : Nat) → BoardInvariant 3 (createGrid s)) ∧
    (∀ (s : State) (row col : Int), BoardInvariant 3 s → InBounds 3 row col →
      ∃ s1, moveTile row col s = .ok s1 ∧ BoardInvariant 3 s1) ∧
    (∀ (s : State) (d : Nat), s.size = (3 : Nat) → BoardInvariant 3 s →
      ∃ s1, shuffleStep d s = .ok s1 ∧ s1.size = (3 : Nat) ∧ BoardInvariant 3 s1) ∧
    (∀ (s : State) (rand : Nat → Nat), s.size = (3 : Nat) →
      ∃ s1, shuffle rand s = .ok s1 ∧ BoardInvariant 3 s1 ∧
        s1.grid.flatten.Perm ((List.range (3 * 3)).map Int.ofNat))) ∧
    BoardInvariant 3 (createGrid ⟨3, [], ⟨2, 2⟩, 0, false, false⟩) :=
  ⟨by decide, boardInvariant_maintained 3 (by decide),
    (boardInvariant_maintained 3 (by decide)).1 ⟨3, [], ⟨2, 2⟩, 0, false, false⟩ rfl⟩

/-! ## Replaying and undoing the slides of `shuffle` -/

theorem swapCells_swapCells {N : Nat} {g : Grid} (hg : IsSquare N g) {a b c d : Nat}
    (ha : a < N) (hb : b < N) (hc : c < N) (hd : d < N) :
    swapCells (swapCells g a b c d) c d a b = g := by
  have hg1 := isSquare_swapCells hg a b c d
  apply grid_ext (isSquare_swapCells hg1 c d a b) hg
  intro i j _ _
  rw [cellOf_swapCells hg1 hc hd ha hb, cellOf_swapCells hg ha hb hc hd,
    cellOf_swapCells hg ha hb hc hd, cellOf_swapCells hg ha hb hc hd]
  by_cases h1 : i = a ∧ j = b
  · obtain ⟨rfl, rfl⟩ := h1
    by_cases h2 : i = c ∧ j = d
    · obtain ⟨rfl, rfl⟩ := h2; simp
    · simp [h2]
  · by_cases h2 : i = c ∧ j = d
    · obtain ⟨rfl, rfl⟩ := h2
      have h3 : ¬(a = i ∧ b = j) := fun h => h1 ⟨h.1.symm, h.2.symm⟩
      simp [h1, h3]
    · simp [h1, h2]

theorem moveSettled_ok {N : Nat} {s : State} (hs : s.size = N) (hg : IsSquare N s.grid) :
    ∃ s1, moveSettled s = .ok s1 ∧ s1.size = s.size ∧ s1.grid = s.grid ∧
      s1.emptyPos = s.emptyPos ∧ s1.moves = s.moves ∧ s1.isMoving = false := by
  have hs1 : ({ s with isMoving := false } : State).size = N := hs
  have hg1 : IsSquare N ({ s with isMoving := false } : State).grid := hg
  have hcw := checkWin_eq hs1 hg1
  unfold moveSettled
  simp only [hcw, bind, Except.bind]
  split
  · exact ⟨_, rfl, rfl, rfl, rfl, rfl, rfl⟩
  · exact ⟨_, rfl, rfl, rfl, rfl, rfl, rfl⟩

theorem legalSlide_swap {N : Nat} {t : State} (hs : t.size = N) (hg : IsSquare N t.grid)
    {er ec mr mc : Nat} (he : t.emptyPos = ⟨er, ec⟩) (her : er < N) (hec : ec < N)
    (hmr : mr < N) (hmc : mc < N) (hmoving : t.isMoving = false)
    (hcan : canMove mr mc t = true) :
    ∃ t1, legalSlide ⟨mr, mc⟩ t = some t1 ∧ t1.size = N ∧
      t1.grid = swapCells t.grid er ec mr mc ∧ t1.emptyPos = ⟨mr, mc⟩ ∧
      t1.isMoving = false := by
  have hcond : 0 ≤ (mr : Int) ∧ (mr : Int) < t.size ∧ 0 ≤ (mc : Int) ∧ (mc : Int) < t.size ∧
      canMove mr mc t = true ∧ t.isMoving = false := by
    rw [hs]; exact ⟨by omega, by omega, by omega, by omega, hcan, hmoving⟩
  have hmv := moveTile_accepted_eq hg he her hec hmr hmc hmoving hcan
  obtain ⟨t1, h1, h2, h3, h4, _, h6⟩ := moveSettled_ok
    (s := { t with
      grid := swapCells t.grid er ec mr mc
      emptyPos := ⟨mr, mc⟩
      moves := t.moves + 1
      isMoving := true })
    hs (isSquare_swapCells hg _ _ _ _)
  refine ⟨t1, ?_, h2.trans hs, h3, h4, h6⟩
  simp only [legalSlide, if_pos hcond, hmv, bind, Except.bind, h1]

theorem playSlides_append (xs ys : List Pos) (s : State) :
    playSlides (xs ++ ys) s = (playSlides xs s).bind (playSlides ys) := by
  induction xs generalizing s with
  | nil => simp [playSlides]
  | cons x xs ih =>
    simp only [List.cons_append, playSlides]
    cases legalSlide x s with
    | none => rfl
    | some s1 => simp [ih]

theorem shuffleRecord_cons_none {d : Nat} {ds : List Nat} {s s1 : State}
    (h1 : shuffleStep d s = .ok s1) (h2 : chosenMove d s = none) :
    shuffleRecord (d :: ds) s = shuffleRecord ds s1 := by
  simp only [shuffleRecord, h1, h2]

theorem shuffleRecord_cons_some {d : Nat} {ds : List Nat} {s s1 : State} {m : Pos}
    (h1 : shuffleStep d s = .ok s1) (h2 : chosenMove d s = some m) :
    shuffleRecord (d :: ds) s = (s.emptyPos, m) :: shuffleRecord ds s1 := by
  simp only [shuffleRecord, h1, h2]

theorem shuffleLoop_cons {d : Nat} {ds : List Nat} {s s1 : State}
    (h1 : shuffleStep d s = .ok s1) : shuffleLoop (d :: ds) s = shuffleLoop ds s1 := by
  simp only [shuffleLoop, h1, bind, Except.bind]

theorem shuffle_replay {N : Nat} (ds : List Nat) {s t : State} (hs : s.size = N)
    (hinv : BoardInvariant N s) (ht : t.size = N) (htg : t.grid = s.grid)
    (hte : t.emptyPos = s.emptyPos) (htm : t.isMoving = false) :
    ∃ sf sp, shuffleLoop ds s = .ok sf ∧
      playSlides ((shuffleRecord ds s).map (fun r => r.2)) t = some sp ∧
      sp.grid = sf.grid ∧ sp.emptyPos = sf.emptyPos := by
  induction ds generalizing s t with
  | nil => exact ⟨s, t, rfl, rfl, htg, hte⟩
  | cons d ds ih =>
    rcases shuffleStep_spec hs hinv d with
      ⟨_, hch, hst⟩ | ⟨er, ec, mr, mc, h1, h2, h3, h4, he, hch, hcan, h00, hst⟩
    · rw [shuffleLoop_cons hst, shuffleRecord_cons_none hst hch]
      exact ih hs hinv ht htg hte htm
    · rw [shuffleLoop_cons hst, shuffleRecord_cons_some hst hch]
      have hcan2 : canMove mr mc t = true := by
        rw [canMove_iff] at hcan ⊢
        rw [hte]; exact hcan
      obtain ⟨t1, ht1, hs1, hg1, he1, hm1⟩ := legalSlide_swap ht (htg ▸ hinv.1)
        (hte.trans he) h1 h2 h3 h4 htm hcan2
      have hinv1 := boardInvariant_swap
        (t := { s with
          grid := swapCells s.grid er ec mr mc
          emptyPos := ⟨mr, mc⟩ })
        hinv h1 h2 h3 h4 (ne_of_canMove he hcan) h00 rfl rfl
      obtain ⟨sf, sp, hf, hp, hgp, hep⟩ := ih
        (s := { s with
          grid := swapCells s.grid er ec mr mc
          emptyPos := ⟨mr, mc⟩ })
        (t := t1) hs hinv1 hs1 (by rw [hg1, htg]) he1 hm1
      refine ⟨sf, sp, hf, ?_, hgp, hep⟩
      simp only [List.map_cons, playSlides, ht1, Option.bind]
      exact hp

theorem shuffle_undo {N : Nat} (ds : List Nat) {s sf t : State} (hs : s.size = N)
    (hinv : BoardInvariant N s) (hf : shuffleLoop ds s = .ok sf) (ht : t.size = N)
    (htg : t.grid = sf.grid) (hte : t.emptyPos = sf.emptyPos) (htm : t.isMoving = false) :
    ∃ u, playSlides ((shuffleRecord ds s).reverse.map (fun r => r.1)) t = some u ∧
      u.size = N ∧ u.grid = s.grid ∧ u.emptyPos = s.emptyPos ∧ u.isMoving = false := by
  induction ds generalizing s with
  | nil =>
    simp only [shuffleLoop, Except.ok.injEq] at hf
    subst hf
    exact ⟨t, rfl, ht, htg, hte, htm⟩
  | cons d ds ih =>
    rcases shuffleStep_spec hs hinv d with
      ⟨_, hch, hst⟩ | ⟨er, ec, mr, mc, h1, h2, h3, h4, he, hch, hcan, h00, hst⟩
    · rw [shuffleLoop_cons hst] at hf
      rw [shuffleRecord_cons_none hst hch]
      exact ih hs hinv hf
    · rw [shuffleLoop_cons hst] at hf
      rw [shuffleRecord_cons_some hst hch]
      have hinv1 := boardInvariant_swap
        (t := { s with
          grid := swapCells s.grid er ec mr mc
          emptyPos := ⟨mr, mc⟩ })
        hinv h1 h2 h3 h4 (ne_of_canMove he hcan) h00 rfl rfl
      obtain ⟨u1, hu1, hus, hug, hue, hum⟩ := ih
        (s := { s with
          grid := swapCells s.grid er ec mr mc
          emptyPos := ⟨mr, mc⟩ })
        hs hinv1 hf
      simp only at hug hue
      have hcan2 : canMove er ec u1 = true := by
        rw [canMove_iff] at hcan ⊢
        rw [he] at hcan
        rw [hue]
        simp only at hcan ⊢
        omega
      obtain ⟨u, hu, hus2, hug2, hue2, hum2⟩ := legalSlide_swap hus
        (hug ▸ isSquare_swapCells hinv.1 _ _ _ _) hue h3 h4 h1 h2 hum hcan2
      refine ⟨u, ?_, hus2, ?_, hue2.trans he.symm, hum2⟩
      · simp only [List.reverse_cons, List.map_append, List.map_cons, List.map_nil,
          playSlides_append, hu1, Option.bind, playSlides, he, hu]
      · rw [hug2, hug, swapCells_swapCells hinv.1 h1 h2 h3 h4]

/-- C4: for `N ≥ 2` and every sequence of draws, `shuffle` returns a board; the
slides it made, replayed from the solved board of `createGrid` as player moves,
are all legal (in bounds, `canMove` true) and lead to the same grid and empty
position; and sliding back into the vacated positions in reverse order, again
all legal moves, leads from the shuffled board back to the grid and empty
position of `createGrid`. -/
theorem shuffle_reachable_and_undoable (N : Nat) (hN : 2 ≤ N) (s : State) (rand : Nat → Nat)
    (hs : s.size = N) (hmoving : s.isMoving = false) :
    ∃ sf, shuffle rand s = .ok sf ∧
      (∃ sp, playSlides
          ((shuffleRecord ((List.range 1000).map rand) (createGrid s)).map (fun r => r.2))
          (createGrid s) = some sp ∧
        sp.grid = sf.grid ∧ sp.emptyPos = sf.emptyPos) ∧
      (∃ su, playSlides
          ((shuffleRecord ((List.range 1000).map rand) (createGrid s)).reverse.map
            (fun r => r.1)) sf = some su ∧
        su.grid = (createGrid s).grid ∧ su.emptyPos = (createGrid s).emptyPos) := by
  have hs0 : (createGrid s).size = N := hs
  have hinv0 := boardInvariant_createGrid (show 1 ≤ N by omega) s hs
  obtain ⟨sf, sp, hf, hp, hgp, hep⟩ := shuffle_replay ((List.range 1000).map rand) hs0 hinv0
    hs0 rfl rfl hmoving
  obtain ⟨sf2, hf2, hsz, _, _, him, _⟩ := shuffleLoop_inv ((List.range 1000).map rand) hs0 hinv0
  have hsame : sf2 = sf := by
    rw [hf] at hf2
    exact (Except.ok.inj hf2).symm
  subst hsame
  obtain ⟨u, hu, _, hug, hue, _⟩ := shuffle_undo (t := { sf2 with moves := 0 })
    ((List.range 1000).map rand) hs0 hinv0 hf hsz rfl rfl (him.trans hmoving)
  refine ⟨{ sf2 with moves := 0 }, ?_, ⟨sp, hp, hgp, hep⟩, ⟨u, hu, hug, hue⟩⟩
  simp only [shuffle, hf, bind, Except.bind, pure, Except.pure]

/-- Witness for C4: size 3 with the draws `0, 1, 2, ...`. -/
theorem shuffle_reachable_and_undoable_witness :
    (2 ≤ 3 ∧ (⟨3, [], ⟨2, 2⟩, 0, false, false⟩ : State).size = (3 : Nat) ∧
      (⟨3, [], ⟨2, 2⟩, 0, false, false⟩ : State).isMoving = false) ∧
    ∃ sf, shuffle (fun i => i) ⟨3, [], ⟨2, 2⟩, 0, false, false⟩ = .ok sf ∧
      (∃ sp, playSlides
          ((shuffleRecord ((List.range 1000).map (fun i => i))
            (createGrid ⟨3, [], ⟨2, 2⟩, 0, false, false⟩)).map (fun r => r.2))
          (createGrid ⟨3, [], ⟨2, 2⟩, 0, false, false⟩) = some sp ∧
        sp.grid = sf.grid ∧ sp.emptyPos = sf.emptyPos) ∧
      (∃ su, playSlides
          ((shuffleRecord ((List.range 1000).map (fun i => i))
            (createGrid ⟨3, [], ⟨2, 2⟩, 0, false, false⟩)).reverse.map
            (fun r => r.1)) sf = some su ∧
        su.grid = (createGrid ⟨3, [], ⟨2, 2⟩, 0, false, false⟩).grid ∧
        su.emptyPos = (createGrid ⟨3, [], ⟨2, 2⟩, 0, false, false⟩).emptyPos) :=
  ⟨⟨by decide, rfl, rfl⟩,
    shuffle_reachable_and_undoable 3 (by decide) ⟨3, [], ⟨2, 2⟩, 0, false, false⟩
      (fun i => i) rfl rfl⟩

/-! ## Parity of the walk made by `shuffle` -/

theorem cellOf_swapCells_perm {N : Nat} {g : Grid} (hg : IsSquare N g) {a b c d : Nat}
    (ha : a < N) (hb : b < N) (hc : c < N) (hd : d < N) (q : Fin N × Fin N) :
    cellOf (swapCells g a b c d) q.1 q.2 =
      cellOf g (Equiv.swap ((⟨a, ha⟩, ⟨b, hb⟩) : Fin N × Fin N) (⟨c, hc⟩, ⟨d, hd⟩) q).1
        (Equiv.swap ((⟨a, ha⟩, ⟨b, hb⟩) : Fin N × Fin N) (⟨c, hc⟩, ⟨d, hd⟩) q).2 := by
  obtain ⟨⟨i, hi⟩, ⟨j, hj⟩⟩ := q
  rw [cellOf_swapCells hg ha hb hc hd, Equiv.swap_apply_def]
  simp only [Prod.mk.injEq, Fin.mk.injEq]
  by_cases h1 : i = a ∧ j = b
  · obtain ⟨rfl, rfl⟩ := h1
    by_cases h2 : i = c ∧ j = d
    · obtain ⟨rfl, rfl⟩ := h2
      simp
    · simp [h2]
  · by_cases h2 : i = c ∧ j = d
    · obtain ⟨rfl, rfl⟩ := h2
      simp [h1]
    · simp [h1, h2]

theorem shuffle_walk {N : Nat} (hN : 2 ≤ N) (ds : List Nat) {s : State} (hs : s.size = N)
    (hinv : BoardInvariant N s) :
    ∃ sf, shuffleLoop ds s = .ok sf ∧
      (shuffleRecord ds s).length = ds.length ∧
      (sf.emptyPos.row + sf.emptyPos.col) % 2 =
        (s.emptyPos.row + s.emptyPos.col + (ds.length : Int)) % 2 ∧
      ∃ π : Equiv.Perm (Fin N × Fin N), Equiv.Perm.sign π = (-1) ^ ds.length ∧
        ∀ p : Fin N × Fin N,
          cellOf sf.grid p.1 p.2 = cellOf s.grid (π p).1 (π p).2 := by
  induction ds generalizing s with
  | nil => exact ⟨s, rfl, rfl, by simp, 1, by simp, fun p => rfl⟩
  | cons d ds ih =>
    rcases shuffleStep_spec hs hinv d with
      ⟨hnil, _, _⟩ | ⟨er, ec, mr, mc, h1, h2, h3, h4, he, hch, hcan, h00, hst⟩
    · have := possibleMoves_length_pos hN hs hinv.2.2.1
      rw [hnil] at this
      exact absurd this (by simp)
    · have hne := ne_of_canMove he hcan
      have hinv1 := boardInvariant_swap
        (t := { s with
          grid := swapCells s.grid er ec mr mc
          emptyPos := ⟨mr, mc⟩ })
        hinv h1 h2 h3 h4 hne h00 rfl rfl
      obtain ⟨sf, hf, hlen, hpar, π, hsign, hπ⟩ := ih
        (s := { s with
          grid := swapCells s.grid er ec mr mc
          emptyPos := ⟨mr, mc⟩ })
        hs hinv1
      simp only at hpar hπ
      have hadj := (canMove_iff s mr mc).mp hcan
      rw [he] at hadj
      simp only at hadj
      refine ⟨sf, ?_, ?_, ?_, ?_⟩
      · rw [shuffleLoop_cons hst]; exact hf
      · rw [shuffleRecord_cons_some hst hch, List.length_cons, hlen, List.length_cons]
      · rw [hpar, he]
        simp only [List.length_cons]
        push_cast
        omega
      · have hab : ((⟨er, h1⟩, ⟨ec, h2⟩) : Fin N × Fin N) ≠ (⟨mr, h3⟩, ⟨mc, h4⟩) := by
          intro h
          simp only [Prod.mk.injEq, Fin.mk.injEq] at h
          exact hne ⟨h.1.symm, h.2.symm⟩
        refine ⟨Equiv.swap ((⟨er, h1⟩, ⟨ec, h2⟩) : Fin N × Fin N) (⟨mr, h3⟩, ⟨mc, h4⟩) * π,
          ?_, ?_⟩
        · rw [Equiv.Perm.sign_mul, Equiv.Perm.sign_swap hab, hsign, List.length_cons, pow_succ]
          simp
        · intro p
          rw [hπ p, cellOf_swapCells_perm hinv.1 h1 h2 h3 h4 (π p)]
          rfl

theorem isSlide_of_swap {N : Nat} {s : State} (hinv : BoardInvariant N s)
    {er ec mr mc : Nat} (her : er < N) (hec : ec < N) (hmr : mr < N) (hmc : mc < N)
    (he : s.emptyPos = ⟨er, ec⟩) (hcan : canMove mr mc s = true)
    (h00 : cellOf s.grid er ec = 0) {t : State}
    (hg1 : t.grid = swapCells s.grid er ec mr mc) (he1 : t.emptyPos = ⟨mr, mc⟩) :
    IsSlide N s t := by
  have hg := hinv.1
  have hadj := (canMove_iff s mr mc).mp hcan
  rw [he] at hadj
  simp only at hadj
  have hne : ¬((er : Int) = mr ∧ (ec : Int) = mc) := by omega
  rw [IsSlide, he1, hg1, he]
  simp only
  refine ⟨?_, hcan, by omega, ?_, ?_, ?_⟩
  · simp only [InBounds]; omega
  · rw [readCell_swapCells hg her hec hmr hmc, if_pos ⟨rfl, rfl⟩, h00]
  · rw [readCell_swapCells hg her hec hmr hmc, if_neg hne, if_pos ⟨rfl, rfl⟩,
      readCell_eq hg hmr hmc]
  · intro i j h1 h2
    simp only [ne_eq, Prod.mk.injEq] at h1 h2
    rw [readCell_swapCells hg her hec hmr hmc, if_neg h1, if_neg h2]

theorem shuffle_iter {N : Nat} (hN : 2 ≤ N) (ds : List Nat) {s : State} (hs : s.size = N)
    (hinv : BoardInvariant N s) (k : Nat) (hk : k < ds.length) :
    ∃ sk sk1, shuffleLoop (ds.take k) s = .ok sk ∧ possibleMoves sk ≠ [] ∧
      shuffleLoop (ds.take (k + 1)) s = .ok sk1 ∧ IsSlide N sk sk1 ∧
      (shuffleRecord ds s)[k]? = some (sk.emptyPos, sk1.emptyPos) := by
  induction ds generalizing s k with
  | nil => simp at hk
  | cons d ds ih =>
    have hpos := possibleMoves_length_pos hN hs hinv.2.2.1
    rcases shuffleStep_spec hs hinv d with
      ⟨hnil, _, _⟩ | ⟨er, ec, mr, mc, h1, h2, h3, h4, he, hch, hcan, h00, hst⟩
    · rw [hnil] at hpos
      exact absurd hpos (by simp)
    · cases k with
      | zero =>
        have hslide := isSlide_of_swap
          (t := { s with
            grid := swapCells s.grid er ec mr mc
            emptyPos := ⟨mr, mc⟩ })
          hinv h1 h2 h3 h4 he hcan h00 rfl rfl
        refine ⟨s, _, rfl, ?_, ?_, hslide, ?_⟩
        · intro hnil
          rw [hnil] at hpos
          exact absurd hpos (by simp)
        · rw [List.take_succ_cons, List.take_zero, shuffleLoop_cons hst]
          rfl
        · rw [shuffleRecord_cons_some hst hch, List.getElem?_cons_zero]
      | succ k =>
        have hinv1 := boardInvariant_swap
          (t := { s with
            grid := swapCells s.grid er ec mr mc
            emptyPos := ⟨mr, mc⟩ })
          hinv h1 h2 h3 h4 (ne_of_canMove he hcan) h00 rfl rfl
        obtain ⟨sk, sk1, ha, hb, hc, hd, hr⟩ := ih
          (s := { s with
            grid := swapCells s.grid er ec mr mc
            emptyPos := ⟨mr, mc⟩ })
          hs hinv1 k (by simpa using hk)
        refine ⟨sk, sk1, ?_, hb, ?_, hd, ?_⟩
        · rw [List.take_succ_cons, shuffleLoop_cons hst]; exact ha
        · rw [List.take_succ_cons, shuffleLoop_cons hst]; exact hc
        · rw [shuffleRecord_cons_some hst hch, List.getElem?_cons_succ]; exact hr

/-- C10: for `N ≥ 2` and every sequence of draws, at each of the 1000 iterations
of `shuffle` the array `possibleMoves` is not empty and the iteration makes one
slide: the state after it is the state before it with the empty position moved
to an in-bounds neighbour (`row + col` changes by exactly one) and the two cells
exchanged, and this is the entry of the record for that iteration; so `shuffle`
makes exactly 1000 slides.  The final `emptyPos` is the cell that holds `0` and
has an even `row + col`, so it is neither of the two cells next to the
bottom-right corner; and the final arrangement is an even permutation of the
solved arrangement. -/
theorem shuffle_even (N : Nat) (hN : 2 ≤ N) (s : State) (rand : Nat → Nat)
    (hs : s.size = N) :
    (∀ k, k < 1000 → ∃ sk sk1,
      shuffleLoop (((List.range 1000).map rand).take k) (createGrid s) = .ok sk ∧
      possibleMoves sk ≠ [] ∧
      shuffleLoop (((List.range 1000).map rand).take (k + 1)) (createGrid s) = .ok sk1 ∧
      IsSlide N sk sk1 ∧
      (shuffleRecord ((List.range 1000).map rand) (createGrid s))[k]? =
        some (sk.emptyPos, sk1.emptyPos)) ∧
    (shuffleRecord ((List.range 1000).map rand) (createGrid s)).length = 1000 ∧
    ∃ sf, shuffle rand s = .ok sf ∧
      (∃ sl, shuffleLoop ((List.range 1000).map rand) (createGrid s) = .ok sl ∧
        sf.grid = sl.grid ∧ sf.emptyPos = sl.emptyPos) ∧
      readCell sf.grid sf.emptyPos.row sf.emptyPos.col = .ok (some 0) ∧
      (sf.emptyPos.row + sf.emptyPos.col) % 2 = 0 ∧
      sf.emptyPos ≠ ⟨(N : Int) - 1, (N : Int) - 2⟩ ∧
      sf.emptyPos ≠ ⟨(N : Int) - 2, (N : Int) - 1⟩ ∧
      ∃ π : Equiv.Perm (Fin N × Fin N), Equiv.Perm.sign π = 1 ∧
        ∀ p : Fin N × Fin N,
          readCell sf.grid ((p.1 : Nat) : Int) ((p.2 : Nat) : Int) =
            readCell (createGrid s).grid (((π p).1 : Nat) : Int) (((π p).2 : Nat) : Int) := by
  have hs0 : (createGrid s).size = N := hs
  have hinv0 := boardInvariant_createGrid (show 1 ≤ N by omega) s hs
  refine ⟨?_, ?_, ?_⟩
  · intro k hk
    exact shuffle_iter hN ((List.range 1000).map rand) hs0 hinv0 k (by simpa using hk)
  · obtain ⟨_, _, hlen, _⟩ := shuffle_walk hN ((List.range 1000).map rand) hs0 hinv0
    rw [hlen]
    simp
  · obtain ⟨sf, hf, _, hpar, π, hsign, hπ⟩ :=
      shuffle_walk hN ((List.range 1000).map rand) hs0 hinv0
    obtain ⟨sf2, hf2, _, hinv2, _⟩ := shuffleLoop_inv ((List.range 1000).map rand) hs0 hinv0
    have hsame : sf2 = sf := by
      rw [hf] at hf2
      exact (Except.ok.inj hf2).symm
    subst hsame
    have hpar2 : (sf2.emptyPos.row + sf2.emptyPos.col) % 2 = 0 := by
      rw [hpar]
      simp only [createGrid, hs, List.length_map, List.length_range]
      omega
    refine ⟨{ sf2 with moves := 0 }, ?_, ⟨sf2, hf, rfl, rfl⟩, hinv2.2.2.2, hpar2, ?_, ?_,
      π, ?_, ?_⟩
    · simp only [shuffle, hf, bind, Except.bind, pure, Except.pure]
    · intro h
      simp only at h
      rw [h] at hpar2
      simp only at hpar2
      omega
    · intro h
      simp only at h
      rw [h] at hpar2
      simp only at hpar2
      omega
    · rw [hsign, List.length_map, List.length_range]
      exact Even.neg_one_pow ⟨500, rfl⟩
    · intro p
      simp only
      rw [readCell_eq hinv2.1 p.1.2 p.2.2, readCell_eq hinv0.1 (π p).1.2 (π p).2.2, hπ p]

/-- Witness for C10: size 3 with the draws `0, 1, 2, ...`; the first iteration
(draw `0`) slides the tile `6` from `(1, 2)` into the corner. -/
theorem shuffle_even_witness :
    (2 ≤ 3 ∧ (⟨3, [], ⟨2, 2⟩, 0, false, false⟩ : State).size = (3 : Nat)) ∧
    ((∀ k, k < 1000 → ∃ sk sk1,
      shuffleLoop (((List.range 1000).map (fun i => i)).take k)
        (createGrid ⟨3, [], ⟨2, 2⟩, 0, false, false⟩) = .ok sk ∧
      possibleMoves sk ≠ [] ∧
      shuffleLoop (((List.range 1000).map (fun i => i)).take (k + 1))
        (createGrid ⟨3, [], ⟨2, 2⟩, 0, false, false⟩) = .ok sk1 ∧
      IsSlide 3 sk sk1 ∧
      (shuffleRecord ((List.range 1000).map (fun i => i))
        (createGrid ⟨3, [], ⟨2, 2⟩, 0, false, false⟩))[k]? =
        some (sk.emptyPos, sk1.emptyPos)) ∧
    (shuffleRecord ((List.range 1000).map (fun i => i))
      (createGrid ⟨3, [], ⟨2, 2⟩, 0, false, false⟩)).length = 1000 ∧
    ∃ sf, shuffle (fun i => i) ⟨3, [], ⟨2, 2⟩, 0, false, false⟩ = .ok sf ∧
      (∃ sl, shuffleLoop ((List.range 1000).map (fun i => i))
          (createGrid ⟨3, [], ⟨2, 2⟩, 0, false, false⟩) = .ok sl ∧
        sf.grid = sl.grid ∧ sf.emptyPos = sl.emptyPos) ∧
      readCell sf.grid sf.emptyPos.row sf.emptyPos.col = .ok (some 0) ∧
      (sf.emptyPos.row + sf.emptyPos.col) % 2 = 0 ∧
      sf.emptyPos ≠ ⟨((3 : Nat) : Int) - 1, ((3 : Nat) : Int) - 2⟩ ∧
      sf.emptyPos ≠ ⟨((3 : Nat) : Int) - 2, ((3 : Nat) : Int) - 1⟩ ∧
      ∃ π : Equiv.Perm (Fin 3 × Fin 3), Equiv.Perm.sign π = 1 ∧
        ∀ p : Fin 3 × Fin 3,
          readCell sf.grid ((p.1 : Nat) : Int) ((p.2 : Nat) : Int) =
            readCell (createGrid ⟨3, [], ⟨2, 2⟩, 0, false, false⟩).grid
              (((π p).1 : Nat) : Int) (((π p).2 : Nat) : Int)) ∧
    shuffleStep 0 ⟨3, [[1, 2, 3], [4, 5, 6], [7, 8, 0]], ⟨2, 2⟩, 0, false, false⟩ =
      .ok ⟨3, [[1, 2, 3], [4, 5, 0], [7, 8, 6]], ⟨1, 2⟩, 0, false, false⟩ ∧
    shuffleLoop [0, 0] ⟨3, [[1, 2, 3], [4, 5, 6], [7, 8, 0]], ⟨2, 2⟩, 0, false, false⟩ =
      .ok ⟨3, [[1, 2, 0], [4, 5, 3], [7, 8, 6]], ⟨0, 2⟩, 0, false, false⟩ :=
  ⟨⟨by decide, rfl⟩,
    shuffle_even 3 (by decide) ⟨3, [], ⟨2, 2⟩, 0, false, false⟩ (fun i => i) rfl,
    rfl, rfl⟩

/-! ## Moves on a solved board -/

/-- Counterexample to C8: size 2, board `[[1,2],[0,3]]`.  The accepted move
`moveTile(1, 1)` followed by its timeout callback solves the board (`checkWin` is
true and `gameWon` has stopped the timer); `moveTile(0, 1)` on that state is
then accepted: the grid becomes `[[1,0],[3,2]]` and `moves` goes from 1 to 2. -/
theorem moveTile_after_win_accepted :
    (moveTile 1 1 ⟨2, [[1, 2], [0, 3]], ⟨1, 0⟩, 0, false, true⟩ >>= moveSettled) =
      .ok ⟨2, [[1, 2], [3, 0]], ⟨1, 1⟩, 1, false, false⟩ ∧
    checkWin ⟨2, [[1, 2], [3, 0]], ⟨1, 1⟩, 1, false, false⟩ = .ok true ∧
    moveTile 0 1 ⟨2, [[1, 2], [3, 0]], ⟨1, 1⟩, 1, false, false⟩ =
      .ok ⟨2, [[1, 0], [3, 2]], ⟨0, 1⟩, 2, true, false⟩ :=
  ⟨rfl, rfl, rfl⟩

/-- C8, amended: `moveTile` has no guard for the solved state.  On a board that
satisfies the invariant and `checkWin`, `moveTile row col` is rejected (state
unchanged) when `canMove row col` is false or `isMoving` is set, and on an
in-bounds cell for which `canMove` holds, with `isMoving` clear, it is accepted:
the cell becomes the empty one, `moves` grows by one and `checkWin` is false
afterwards. -/
theorem moveTile_on_solved_board (N : Nat) (s : State) (hs : s.size = N)
    (hinv : BoardInvariant N s) (hwin : checkWin s = .ok true) (row col : Int) :
    (canMove row col s = false ∨ s.isMoving = true → moveTile row col s = .ok s) ∧
    (InBounds N row col → canMove row col s = true → s.isMoving = false →
      ∃ s1, moveTile row col s = .ok s1 ∧ s1.emptyPos = ⟨row, col⟩ ∧
        readCell s1.grid row col = .ok (some 0) ∧ s1.moves = s.moves + 1 ∧
        checkWin s1 = .ok false) := by
  constructor
  · intro h
    unfold moveTile
    rcases h with h | h <;> simp [h]
  · intro hin hcan hmoving
    obtain ⟨hg, _, ⟨he1, he2, he3, he4⟩, hempty⟩ := hinv
    obtain ⟨hr1, hr2, hc1, hc2⟩ := hin
    obtain ⟨er, her⟩ := Int.eq_ofNat_of_zero_le he1
    obtain ⟨ec, hec⟩ := Int.eq_ofNat_of_zero_le he3
    obtain ⟨r, rfl⟩ := Int.eq_ofNat_of_zero_le hr1
    obtain ⟨c, rfl⟩ := Int.eq_ofNat_of_zero_le hc1
    have her2 : er < N := by omega
    have hec2 : ec < N := by omega
    have hr3 : r < N := by omega
    have hc3 : c < N := by omega
    have he : s.emptyPos = ⟨er, ec⟩ := by
      cases hp : s.emptyPos with
      | mk a b => rw [hp] at her hec; simp only at her hec; rw [her, hec]
    have h00 : cellOf s.grid er ec = 0 := by
      rw [he] at hempty
      simp only at hempty
      rw [readCell_eq hg her2 hec2] at hempty
      simpa using hempty
    have hall := (checkWin_true_iff hs hg).mp hwin
    have hlast : (er : Int) = (N : Int) - 1 ∧ (ec : Int) = (N : Int) - 1 := by
      by_contra hne
      have h1 := hall er ec her2 hec2 hne
      rw [h00] at h1
      have : (0 : Int) ≤ (er : Int) * (N : Int) := by positivity
      omega
    have hne := ne_of_canMove he hcan
    have hsq1 : IsSquare N (swapCells s.grid er ec r c) := isSquare_swapCells hg _ _ _ _
    have hcell : cellOf (swapCells s.grid er ec r c) r c = 0 := by
      rw [cellOf_swapCells hg her2 hec2 hr3 hc3, if_pos ⟨rfl, rfl⟩, h00]
    have key : ∀ s1 : State, s1.size = N → s1.grid = swapCells s.grid er ec r c →
        checkWin s1 = .ok false := by
      intro s1 hsz hgr
      have hsq2 : IsSquare N s1.grid := by rw [hgr]; exact hsq1
      rw [checkWin_eq hsz hsq2]
      congr 1
      rw [decide_eq_false_iff_not]
      intro hcontra
      have h2 := hcontra r hr3 c hc3 (by omega)
      rw [hgr, hcell] at h2
      have : (0 : Int) ≤ (r : Int) * (N : Int) := by positivity
      omega
    refine ⟨_, moveTile_accepted_eq hg he her2 hec2 hr3 hc3 hmoving hcan, rfl, ?_, rfl, ?_⟩
    · simp only
      rw [readCell_eq hsq1 hr3 hc3, hcell]
    · exact key _ hs rfl

/-- Witness for the amended C8: the solved board of size 2 and the cell `(0, 1)`. -/
theorem moveTile_on_solved_board_witness :
    ((⟨2, [[1, 2], [3, 0]], ⟨1, 1⟩, 1, false, false⟩ : State).size = (2 : Nat) ∧
      BoardInvariant 2 ⟨2, [[1, 2], [3, 0]], ⟨1, 1⟩, 1, false, false⟩ ∧
      checkWin ⟨2, [[1, 2], [3, 0]], ⟨1, 1⟩, 1, false, false⟩ = .ok true ∧
      InBounds 2 0 1 ∧
      canMove 0 1 ⟨2, [[1, 2], [3, 0]], ⟨1, 1⟩, 1, false, false⟩ = true) ∧
    ∃ s1, moveTile 0 1 ⟨2, [[1, 2], [3, 0]], ⟨1, 1⟩, 1, false, false⟩ = .ok s1 ∧
      s1.emptyPos = ⟨0, 1⟩ ∧ readCell s1.grid 0 1 = .ok (some 0) ∧ s1.moves = 1 + 1 ∧
      checkWin s1 = .ok false :=
  have hinv : BoardInvariant 2 ⟨2, [[1, 2], [3, 0]], ⟨1, 1⟩, 1, false, false⟩ :=
    ⟨by decide, by decide, by decide, rfl⟩
  ⟨⟨rfl, hinv, rfl, by decide, rfl⟩,
    (moveTile_on_solved_board 2 ⟨2, [[1, 2], [3, 0]], ⟨1, 1⟩, 1, false, false⟩ rfl hinv rfl
      0 1).2 (by decide) rfl rfl⟩

/-! ## Initialisation for every size -/

theorem shuffleLoop_of_size_le_one (ds : List Nat) (s : State) (hs : s.size ≤ 1)
    (he : s.emptyPos = ⟨s.size - 1, s.size - 1⟩) : shuffleLoop ds s = .ok s := by
  induction ds with
  | nil => rfl
  | cons d ds ih =>
    have h := (shuffleStep_of_nil d s (possibleMoves_eq_nil_of_size_le_one s hs he)).1
    simp only [shuffleLoop, h, bind, Except.bind, ih]

theorem initializeGame_small (rand : Nat → Nat) (s : State) (hs : s.size ≤ 1) :
    initializeGame rand s =
      .ok { createGrid s with moves := 0, timerRunning := true } := by
  have h := shuffleLoop_of_size_le_one ((List.range 1000).map rand)
    (createGrid (createGrid s)) hs rfl
  simp only [initializeGame, shuffle, h, bind, Except.bind, pure, Except.pure, startTimer]
  rfl

theorem createGrid_small (s : State) (hs : s.size ≤ 1) :
    (createGrid s).grid = (List.range s.size.toNat).map (fun _ => [0]) := by
  simp only [createGrid]
  by_cases h1 : s.size = 1
  · rw [h1]; rfl
  · have : s.size.toNat = 0 := by omega
    simp [this]

theorem initializeGame_initialised (rand : Nat → Nat) (s0 : State)
    (hm : s0.isMoving = false) :
    ∃ s, initializeGame rand s0 = .ok s ∧ Initialised rand s0 s := by
  by_cases hs : s0.size ≤ 1
  · refine ⟨_, initializeGame_small rand s0 hs, rfl, rfl, hm, rfl, ?_, ?_⟩
    · intro _
      exact ⟨createGrid_small s0 hs, rfl⟩
    · intro h2
      omega
  · obtain ⟨N, hN⟩ := Int.eq_ofNat_of_zero_le (show 0 ≤ s0.size by omega)
    have hN2 : 2 ≤ N := by omega
    have hs0 : (createGrid s0).size = N := hN
    have hinv0 := boardInvariant_createGrid (show 1 ≤ N by omega) s0 hN
    have hm0 : (createGrid s0).isMoving = false := hm
    obtain ⟨sf, sp, hf, hp, hgp, hep⟩ := shuffle_replay ((List.range 1000).map rand) hs0 hinv0
      hs0 rfl rfl hm0
    obtain ⟨sf2, hf2, hsz, hinv2, _, him, _⟩ :=
      shuffleLoop_inv ((List.range 1000).map rand) hs0 hinv0
    have hsame : sf2 = sf := by
      rw [hf] at hf2
      exact (Except.ok.inj hf2).symm
    subst hsame
    obtain ⟨_, _, hlen, _⟩ := shuffle_walk hN2 ((List.range 1000).map rand) hs0 hinv0
    have hidem : createGrid (createGrid s0) = createGrid s0 := rfl
    refine ⟨startTimer { sf2 with moves := 0 }, ?_, ?_, rfl, ?_, rfl, ?_, ?_⟩
    · simp only [initializeGame, shuffle, hidem, hf, bind, Except.bind, pure, Except.pure]
    · simp only [startTimer]
      rw [hsz, hN]
    · simp only [startTimer]
      rw [him, hm0]
    · intro h1
      omega
    · intro _
      have htn : s0.size.toNat = N := by omega
      rw [htn]
      refine ⟨hinv2, ?_, sp, hp, hgp, hep⟩
      rw [hlen]
      simp

/-- Counterexample to C9: the constructor with size 1 does not fail; it returns a
puzzle with the grid `[[0]]`; with size 0 it returns a puzzle with the empty
grid. -/
theorem construct_small_size_succeeds :
    construct 1 (fun _ => 0) = .ok ⟨1, [[0]], ⟨0, 0⟩, 0, false, true⟩ ∧
    construct 0 (fun _ => 0) = .ok ⟨0, [], ⟨-1, -1⟩, 0, false, true⟩ :=
  ⟨initializeGame_small _ _ (by decide), initializeGame_small _ _ (by decide)⟩

/-- C9, amended: initialisation never fails, whatever the size.  The constructor
and `newGame` return a puzzle of the requested size with `moves = 0`, no move in
flight and the timer running.  For a size of at most 1 its grid and `emptyPos`
are those `createGrid` builds, left unshuffled (`[[0]]` for size 1, the empty
grid for size 0 or less); for a size of at least 2 its board satisfies the
invariant and is the one reached from the board of `createGrid` by the 1000
slides of `shuffle`, played as legal moves. -/
theorem initialise_never_fails (size : Int) (rand : Nat → Nat) :
    (∃ s, construct size rand = .ok s ∧
      Initialised rand ⟨size, [], ⟨size - 1, size - 1⟩, 0, false, false⟩ s) ∧
    (∀ s0 : State, s0.size = size →
      ∃ s, newGame rand s0 = .ok s ∧ s.size = size ∧
        Initialised rand { s0 with isMoving := false, timerRunning := false } s) := by
  refine ⟨?_, ?_⟩
  · exact initializeGame_initialised rand ⟨size, [], ⟨size - 1, size - 1⟩, 0, false, false⟩ rfl
  · intro s0 hs0
    obtain ⟨s, h1, h2⟩ := initializeGame_initialised rand
      { s0 with isMoving := false, timerRunning := false } rfl
    exact ⟨s, h1, h2.1.trans hs0, h2⟩

/-- Witness for the amended C9: size 3 with the draws `0, 1, 2, ...`, and the
object left by a finished game of size 2 for `newGame`. -/
theorem initialise_never_fails_witness :
    (∃ s, construct 3 (fun i => i) = .ok s ∧
      Initialised (fun i => i) ⟨3, [], ⟨3 - 1, 3 - 1⟩, 0, false, false⟩ s) ∧
    ((⟨2, [[1, 2], [3, 0]], ⟨1, 1⟩, 7, true, false⟩ : State).size = 2 ∧
      ∃ s, newGame (fun i => i) ⟨2, [[1, 2], [3, 0]], ⟨1, 1⟩, 7, true, false⟩ = .ok s ∧
        s.size = 2 ∧
        Initialised (fun i => i)
          { (⟨2, [[1, 2], [3, 0]], ⟨1, 1⟩, 7, true, false⟩ : State) with
            isMoving := false, timerRunning := false } s) :=
  ⟨(initialise_never_fails 3 (fun i => i)).1,
    rfl, (initialise_never_fails 2 (fun i => i)).2 ⟨2, [[1, 2], [3, 0]], ⟨1, 1⟩, 7, true, false⟩ rfl⟩

end SlidingPuzzle
